import Mathlib

/-!
Shallow embedding of the rate limiter engine in `93-rate-limiter/rate_limiter.py`.

Modelling conventions:
* `time.time()` is replaced by an explicit parameter `now : ℚ`; all reads of the
  clock inside a single operation see the same value, and Python floats are
  modelled as exact rationals.
* The two dictionaries `_data` and `_expiry` of `InMemoryStorage` become
  association lists; dictionary assignment is `upsert`, which keeps at most one
  entry per key alive for lookups.
* Python `int(...)` truncation toward zero is `pyInt`.
* `str(i)` for an integer `i` is `Int.repr i`.
-/

set_option maxHeartbeats 1000000

/-- Python `int()` truncation toward zero (used by `int(tokens)` and
`int(max_requests - weighted_count - 1)` in the source). -/
def pyInt (q : ℚ) : ℤ := if 0 ≤ q then ⌊q⌋ else ⌈q⌉

/-- Values held in `InMemoryStorage._data`: counters and token-bucket state are
numbers, sliding-window logs are deques of timestamps. -/
inductive Stored where
| num : ℚ → Stored
| list : List ℚ → Stored
deriving DecidableEq

/-- The in-memory backend state: the `_data` and `_expiry` dictionaries. -/
structure InMemoryStorage where
  data : List (String × Stored)
  expiry : List (String × ℚ)
deriving DecidableEq

/-- A fresh `InMemoryStorage()` with empty dictionaries. -/
def emptyStorage : InMemoryStorage := ⟨[], []⟩

/-- Dictionary assignment `d[k] = v`. The entry is put in front and stale
entries for the same key are dropped, so lookups see exactly the new value. -/
def upsert {α : Type} (l : List (String × α)) (k : String) (v : α) :
    List (String × α) :=
  (k, v) :: l.filter (fun p => p.1 != k)

namespace InMemoryStorage

/-- Model of `InMemoryStorage._cleanup_expired`: drop every key whose recorded expiry
time is ≤ now. Keys present in `_data` without an `_expiry` entry survive. -/
def cleanup_expired (s : InMemoryStorage) (now : ℚ) : InMemoryStorage :=
  { data := s.data.filter (fun p =>
      match s.expiry.lookup p.1 with
      | some e => decide (now < e)
      | none => true)
    expiry := s.expiry.filter (fun p => decide (now < p.2)) }

/-- Model of `InMemoryStorage.increment`: purge expired keys, then add one to the
counter at `key` (creating it from 0) and reset its expiry to `now + window`.
Returns the post-increment value. A key holding a deque would raise a
`TypeError` in the source; counter keys never hold one, so it reads as 0. -/
def increment (s : InMemoryStorage) (now : ℚ) (key : String) (window : ℤ) :
    ℚ × InMemoryStorage :=
  let s1 := s.cleanup_expired now
  let current : ℚ :=
    match s1.data.lookup key with
    | some (.num q) => q
    | _ => 0
  let new_value := current + 1
  (new_value,
   { data := upsert s1.data key (.num new_value)
     expiry := upsert s1.expiry key (now + (window : ℚ)) })

/-- Model of `InMemoryStorage.get`: purge expired keys, then read `key`. -/
def get (s : InMemoryStorage) (now : ℚ) (key : String) :
    Option Stored × InMemoryStorage :=
  let s1 := s.cleanup_expired now
  (s1.data.lookup key, s1)

/-- Model of `InMemoryStorage.set`: overwrite `key` and its expiry. Note the source does
NOT purge expired keys here. -/
def set (s : InMemoryStorage) (now : ℚ) (key : String) (value : Stored)
    (ttl : ℤ) : InMemoryStorage :=
  { data := upsert s.data key value
    expiry := upsert s.expiry key (now + (ttl : ℚ)) }

/-- Model of `InMemoryStorage.delete`: remove `key` from both dictionaries (no purge). -/
def delete (s : InMemoryStorage) (key : String) : InMemoryStorage :=
  { data := s.data.filter (fun p => p.1 != key)
    expiry := s.expiry.filter (fun p => p.1 != key) }

/-- Model of `InMemoryStorage.get_list`: purge expired keys, then read the deque at
`key`; a missing key or a non-deque value reads as the empty list. -/
def get_list (s : InMemoryStorage) (now : ℚ) (key : String) :
    List ℚ × InMemoryStorage :=
  let s1 := s.cleanup_expired now
  let l : List ℚ :=
    match s1.data.lookup key with
    | some (.list l) => l
    | _ => []
  (l, s1)

/-- Model of `InMemoryStorage.add_to_list`: append `value` to the deque at `key`
(creating it if the key is absent) and reset the expiry to `now + ttl`. The
source does NOT purge expired keys first, so an expired deque is extended. A
numeric value at `key` would raise an `AttributeError` in the source and never
occurs for log keys; it reads as a fresh deque here. -/
def add_to_list (s : InMemoryStorage) (now : ℚ) (key : String) (value : ℚ)
    (ttl : ℤ) : InMemoryStorage :=
  let new_list : List ℚ :=
    match s.data.lookup key with
    | some (.list l) => l ++ [value]
    | _ => [value]
  { data := upsert s.data key (.list new_list)
    expiry := upsert s.expiry key (now + (ttl : ℚ)) }

/-- Model of `InMemoryStorage.cleanup_list`: if `key` holds a deque, keep only the
timestamps strictly greater than `cutoff`. The expiry is NOT touched and no
purge happens. -/
def cleanup_list (s : InMemoryStorage) (key : String) (cutoff : ℚ) :
    InMemoryStorage :=
  match s.data.lookup key with
  | some (.list l) =>
      { s with data := upsert s.data key (.list (l.filter (fun t => decide (cutoff < t)))) }
  | _ => s

end InMemoryStorage

/-- Model of `RateLimitConfig` (validation happens in `mkRateLimitConfig`). -/
structure RateLimitConfig where
  max_requests : ℤ
  window_seconds : ℤ
deriving DecidableEq

/-- Construction of `RateLimitConfig` objects: `__post_init__` raises `ValueError`
for a non-positive quota or window, before any limiter is built. -/
def mkRateLimitConfig (max_requests window_seconds : ℤ) :
    Except String RateLimitConfig :=
  if max_requests ≤ 0 then .error ("max_requests must be positive")
  else if window_seconds ≤ 0 then .error ("window_seconds must be positive")
  else .ok ⟨max_requests, window_seconds⟩

/-- Model of `RateLimitResult`. `remaining` is an integer in the source; it is kept as a
rational here because the fixed-window remaining is computed in the same
arithmetic as the counter. -/
structure RateLimitResult where
  allowed : Bool
  remaining : ℚ
  reset_at : ℚ
  retry_after : Option ℚ
deriving DecidableEq

namespace TokenBucketLimiter

/-- Value of `TokenBucketLimiter.refill_rate = max_requests / window_seconds`. -/
def refill_rate (config : RateLimitConfig) : ℚ :=
  (config.max_requests : ℚ) / (config.window_seconds : ℚ)

/-- First component of `_get_bucket_key`. -/
def tokens_key (identifier : String) : String := "tb:tokens:" ++ identifier

/-- Second component of `_get_bucket_key`. -/
def last_key (identifier : String) : String := "tb:last:" ++ identifier

/-- Model of `TokenBucketLimiter.allow`. A stored deque under either key would raise in
the source and never occurs; it is read as missing state here. -/
def allow (config : RateLimitConfig) (s : InMemoryStorage) (now : ℚ)
    (identifier : String) : RateLimitResult × InMemoryStorage :=
  let (tokensOpt, s1) := s.get now (tokens_key identifier)
  let (lastOpt, s2) := s1.get now (last_key identifier)
  let (tokens0, last_refill) :=
    match tokensOpt, lastOpt with
    | some (.num t), some (.num l) => (t, l)
    | _, _ => ((config.max_requests : ℚ), now)
  let time_passed := now - last_refill
  let tokens_to_add := time_passed * refill_rate config
  let tokens1 := min (config.max_requests : ℚ) (tokens0 + tokens_to_add)
  let (tokens2, allowed, retry_after) :=
    if (1 : ℚ) ≤ tokens1 then (tokens1 - 1, true, (none : Option ℚ))
    else (tokens1, false, some ((1 - tokens1) / refill_rate config))
  let s3 := s2.set now (tokens_key identifier) (.num tokens2)
    (config.window_seconds * 2)
  let s4 := s3.set now (last_key identifier) (.num now)
    (config.window_seconds * 2)
  let tokens_needed := (config.max_requests : ℚ) - tokens2
  let reset_at := now + tokens_needed / refill_rate config
  (⟨allowed, (pyInt tokens2 : ℤ), reset_at, retry_after⟩, s4)

end TokenBucketLimiter

namespace SlidingWindowLogLimiter

/-- Model of `SlidingWindowLogLimiter._get_log_key`. -/
def log_key (identifier : String) : String := "swl:" ++ identifier

/-- Model of `SlidingWindowLogLimiter.allow`. -/
def allow (config : RateLimitConfig) (s : InMemoryStorage) (now : ℚ)
    (identifier : String) : RateLimitResult × InMemoryStorage :=
  let key := log_key identifier
  let window_start := now - (config.window_seconds : ℚ)
  let s1 := s.cleanup_list key window_start
  let (request_log, s2) := s1.get_list now key
  let request_count := request_log.length
  let reset_at := now + (config.window_seconds : ℚ)
  if (request_count : ℤ) < config.max_requests then
    let s3 := s2.add_to_list now key now config.window_seconds
    (⟨true, ((config.max_requests - request_count - 1 : ℤ) : ℚ), reset_at, none⟩, s3)
  else
    let oldest :=
      match request_log with
      | [] => now
      | t :: ts => ts.foldl min t
    (⟨false, 0, reset_at, some (oldest + (config.window_seconds : ℚ) - now)⟩, s2)

end SlidingWindowLogLimiter

namespace FixedWindowLimiter

/-- Model of `FixedWindowLimiter._get_window_key` with the window index made explicit:
the source computes `window_id = int(now // window_seconds)`. -/
def window_key (identifier : String) (window_id : ℤ) : String :=
  "fw:" ++ identifier ++ ":" ++ Int.repr window_id

/-- Model of `FixedWindowLimiter.allow`. -/
def allow (config : RateLimitConfig) (s : InMemoryStorage) (now : ℚ)
    (identifier : String) : RateLimitResult × InMemoryStorage :=
  let window_id : ℤ := Rat.floor (now / (config.window_seconds : ℚ))
  let key := window_key identifier window_id
  let (count, s1) := s.increment now key config.window_seconds
  let next_window : ℚ := ((window_id + 1 : ℤ) : ℚ) * (config.window_seconds : ℚ)
  if count ≤ (config.max_requests : ℚ) then
    (⟨true, (config.max_requests : ℚ) - count, next_window, none⟩, s1)
  else
    (⟨false, 0, next_window, some (next_window - now)⟩, s1)

end FixedWindowLimiter

namespace SlidingWindowCounterLimiter

/-- Model of `SlidingWindowCounterLimiter._get_window_keys`, one window at a time. -/
def window_key (identifier : String) (window_id : ℤ) : String :=
  "swc:" ++ identifier ++ ":" ++ Int.repr window_id

/-- Model of `SlidingWindowCounterLimiter.allow`. `storage.get(k) or 0` reads a missing
counter as 0 (and a stored 0 as 0). -/
def allow (config : RateLimitConfig) (s : InMemoryStorage) (now : ℚ)
    (identifier : String) : RateLimitResult × InMemoryStorage :=
  let w : ℚ := (config.window_seconds : ℚ)
  let current_window : ℤ := Rat.floor (now / w)
  let current_key := window_key identifier current_window
  let previous_key := window_key identifier (current_window - 1)
  let (curOpt, s1) := s.get now current_key
  let (prevOpt, s2) := s1.get now previous_key
  let current_count : ℚ := match curOpt with | some (.num q) => q | _ => 0
  let previous_count : ℚ := match prevOpt with | some (.num q) => q | _ => 0
  let window_start : ℚ := (Rat.floor (now / w) : ℚ) * w
  let elapsed_percentage := (now - window_start) / w
  let weighted_count := previous_count * (1 - elapsed_percentage) + current_count
  let reset_at := window_start + w
  if weighted_count < (config.max_requests : ℚ) then
    let (_, s3) := s2.increment now current_key (config.window_seconds * 2)
    (⟨true, (max 0 (pyInt ((config.max_requests : ℚ) - weighted_count - 1)) : ℤ),
      reset_at, none⟩, s3)
  else
    (⟨false, max 0 0, reset_at,
      some ((1 - elapsed_percentage) * w)⟩, s2)

end SlidingWindowCounterLimiter

/-- The closed set of algorithms in `RateLimiter.ALGORITHMS`. -/
inductive Algorithm where
| token_bucket
| sliding_window_log
| fixed_window
| sliding_window_counter
deriving DecidableEq

/-- The algorithm names accepted by the `RateLimiter` constructor, in the
order of `RateLimiter.ALGORITHMS`. -/
def ALGORITHM_NAMES : List String :=
  ["token_bucket", "sliding_window_log", "fixed_window", "sliding_window_counter"]

namespace RateLimiter

/-- Model of `RateLimiter.__init__` algorithm selection: an unknown name raises
`ValueError` before any call to `allow` can happen. -/
def mk (algorithm : String) : Except String Algorithm :=
  if algorithm = "token_bucket" then .ok .token_bucket
  else if algorithm = "sliding_window_log" then .ok .sliding_window_log
  else if algorithm = "fixed_window" then .ok .fixed_window
  else if algorithm = "sliding_window_counter" then .ok .sliding_window_counter
  else .error ("Unknown algorithm: " ++ algorithm)

/-- Model of `RateLimiter.allow`: delegate to the selected algorithm. -/
def allow (alg : Algorithm) (config : RateLimitConfig) (s : InMemoryStorage)
    (now : ℚ) (identifier : String) : RateLimitResult × InMemoryStorage :=
  match alg with
  | .token_bucket => TokenBucketLimiter.allow config s now identifier
  | .sliding_window_log => SlidingWindowLogLimiter.allow config s now identifier
  | .fixed_window => FixedWindowLimiter.allow config s now identifier
  | .sliding_window_counter => SlidingWindowCounterLimiter.allow config s now identifier

end RateLimiter

/-- Model of `RateLimitExceeded`: the exception raised by the decorator wrapper,
carrying the `RateLimitResult`. -/
structure RateLimitExceeded where
  message : String
  result : RateLimitResult
deriving DecidableEq

/-- The wrapper produced by the `rate_limit` decorator. Positional arguments
are modelled as their string forms (the wrapper only ever applies `str` to
`args[0]`), keyword arguments as name/value pairs. The third component counts
how many times the wrapped function body ran during this invocation. -/
def rate_limit_wrapper {β : Type} (alg : Algorithm) (config : RateLimitConfig)
    (key_func : Option (List String → List (String × String) → String))
    (func : List String → List (String × String) → β)
    (s : InMemoryStorage) (now : ℚ)
    (args : List String) (kwargs : List (String × String)) :
    Except RateLimitExceeded β × InMemoryStorage × ℕ :=
  let identifier :=
    match key_func with
    | some kf => kf args kwargs
    | none =>
        match args with
        | a :: _ => a
        | [] => "default"
  let (result, s1) := RateLimiter.allow alg config s now identifier
  if result.allowed then (.ok (func args kwargs), s1, 1)
  else (.error ⟨"Rate limit exceeded", result⟩, s1, 0)

/-- Run a sequence of admission checks at the given times, collecting the
`allowed` flags. -/
def runCalls (f : InMemoryStorage → ℚ → RateLimitResult × InMemoryStorage)
    (s : InMemoryStorage) : List ℚ → List Bool × InMemoryStorage
  | [] => ([], s)
  | t :: ts =>
      let (r, s1) := f s t
      let (flags, s2) := runCalls f s1 ts
      (r.allowed :: flags, s2)

/-- Well-formedness of a storage state: each dictionary has at most one entry
per key (always true of Python dictionaries). -/
def WF (s : InMemoryStorage) : Prop :=
  (s.data.map Prod.fst).Nodup ∧ (s.expiry.map Prod.fst).Nodup

instance (s : InMemoryStorage) : Decidable (WF s) := by
  unfold WF; infer_instance

/-- Lookup in `_data` as it is observed through a purge at time `t`: the value
survives iff its expiry (if any) is still in the future. -/
def cleanLookup (s : InMemoryStorage) (t : ℚ) (k : String) : Option Stored :=
  match s.data.lookup k, s.expiry.lookup k with
  | some v, some e => if t < e then some v else none
  | some v, none => some v
  | none, _ => none

/-- The storage keys written by one `allow` call of each algorithm. -/
def touchedKeys (alg : Algorithm) (config : RateLimitConfig)
    (identifier : String) (t : ℚ) : List String :=
  match alg with
  | .token_bucket =>
      [TokenBucketLimiter.tokens_key identifier,
       TokenBucketLimiter.last_key identifier]
  | .sliding_window_log => [SlidingWindowLogLimiter.log_key identifier]
  | .fixed_window =>
      [FixedWindowLimiter.window_key identifier
        (Rat.floor (t / (config.window_seconds : ℚ)))]
  | .sliding_window_counter =>
      [SlidingWindowCounterLimiter.window_key identifier
        (Rat.floor (t / (config.window_seconds : ℚ)))]

/-! ## Proof-support definitions -/

/-- Decimal value of a digit string; proof helper used to invert `Nat.repr`. -/
def digitsVal (cs : List Char) : ℕ :=
  cs.foldl (fun a c => 10 * a + (c.toNat - 48)) 0

/-- Storage shape reached by a run of fixed-window or sliding-window-counter
calls for one previously-unseen identity: one counter entry with one expiry. -/
def counterState (key : String) (c e : ℚ) : InMemoryStorage :=
  ⟨[(key, .num c)], [(key, e)]⟩

/-- Storage shape reached by a run of token-bucket calls for one
previously-unseen identity. -/
def tbRunState (config : RateLimitConfig) (identifier : String)
    (tok tprev : ℚ) : InMemoryStorage :=
  ⟨[(TokenBucketLimiter.last_key identifier, .num tprev),
    (TokenBucketLimiter.tokens_key identifier, .num tok)],
   [(TokenBucketLimiter.last_key identifier,
      tprev + ((config.window_seconds * 2 : ℤ) : ℚ)),
    (TokenBucketLimiter.tokens_key identifier,
      tprev + ((config.window_seconds * 2 : ℤ) : ℚ))]⟩

/-- Storage shape reached by a run of sliding-window-log calls for one
previously-unseen identity. -/
def swlRunState (config : RateLimitConfig) (identifier : String)
    (log : List ℚ) (tprev : ℚ) : InMemoryStorage :=
  ⟨[(SlidingWindowLogLimiter.log_key identifier, .list log)],
   [(SlidingWindowLogLimiter.log_key identifier,
      tprev + (config.window_seconds : ℚ))]⟩

/-! ## Association list lemmas -/

theorem lookup_filter_none {α : Type} {l : List (String × α)} {k : String}
    {p : String × α → Bool} (h : l.lookup k = none) :
    (l.filter p).lookup k = none := by
  induction l with
  | nil => simp
  | cons a l ih =>
      rw [List.lookup] at h
      rcases hak : k == a.1 with _ | _
      · rw [hak] at h
        by_cases hp : p a
        · simp [List.filter_cons_of_pos hp, List.lookup, hak, ih h]
        · simp [List.filter_cons_of_neg hp, ih h]
      · rw [hak] at h
        exact absurd h (by simp)

theorem lookup_filter_pos {α : Type} {l : List (String × α)} {k : String}
    {v : α} {p : String × α → Bool} (h : l.lookup k = some v)
    (hp : p (k, v) = true) : (l.filter p).lookup k = some v := by
  induction l with
  | nil => simp at h
  | cons a l ih =>
      rw [List.lookup] at h
      rcases hak : k == a.1 with _ | _
      · rw [hak] at h
        by_cases hq : p a
        · simp [List.filter_cons_of_pos hq, List.lookup, hak, ih h]
        · simp [List.filter_cons_of_neg hq, ih h]
      · rw [hak] at h
        obtain ⟨rfl⟩ := h
        have hk : k = a.1 := by simpa using hak
        have : p a = true := by
          obtain ⟨a1, a2⟩ := a
          simp only at hk
          subst hk
          exact hp
        simp [List.filter_cons_of_pos this, List.lookup, hak]

theorem lookup_filter_neg {α : Type} {l : List (String × α)} {k : String}
    {v : α} {p : String × α → Bool} (hn : (l.map Prod.fst).Nodup)
    (h : l.lookup k = some v) (hp : p (k, v) = false) :
    (l.filter p).lookup k = none := by
  induction l with
  | nil => simp at h
  | cons a l ih =>
      rw [List.lookup] at h
      rcases hak : k == a.1 with _ | _
      · rw [hak] at h
        by_cases hq : p a
        · simp [List.filter_cons_of_pos hq, List.lookup, hak,
            ih (List.Nodup.of_cons hn) h]
        · simp [List.filter_cons_of_neg hq, ih (List.Nodup.of_cons hn) h]
      · rw [hak] at h
        obtain ⟨rfl⟩ := h
        have hk : k = a.1 := by simpa using hak
        have hpa : p a = false := by
          obtain ⟨a1, a2⟩ := a
          simp only at hk
          subst hk
          exact hp
        rw [List.filter_cons_of_neg (by simp [hpa])]
        apply lookup_filter_none
        subst hk
        rcases hl : l.lookup a.1 with _ | w
        · rfl
        · exfalso
          have : a.1 ∈ l.map Prod.fst := by
            clear ih hn
            induction l with
            | nil => simp at hl
            | cons b l ihh =>
                rw [List.lookup] at hl
                rcases hab : a.1 == b.1 with _ | _
                · rw [hab] at hl
                  simpa using Or.inr (ihh hl)
                · have : a.1 = b.1 := by simpa using hab
                  simp [this]
          rw [List.map_cons] at hn
          exact (List.nodup_cons.mp hn).1 this

theorem lookup_upsert_self {α : Type} (l : List (String × α)) (k : String)
    (v : α) : (upsert l k v).lookup k = some v := by
  simp [upsert, List.lookup]

theorem lookup_filter_ne_key {α : Type} (l : List (String × α))
    (k k' : String) (hk : k' ≠ k) :
    (l.filter (fun p => p.1 != k)).lookup k' = l.lookup k' := by
  induction l with
  | nil => simp
  | cons a l ih =>
      by_cases ha : a.1 = k
      · rw [List.filter_cons_of_neg (by simp [ha])]
        rw [ih, List.lookup]
        have : (k' == a.1) = false := by simp [ha, hk]
        simp [this]
      · rw [List.filter_cons_of_pos (by simp [ha])]
        rw [List.lookup, List.lookup]
        rcases hak : k' == a.1 with _ | _
        · simp [ih]
        · rfl

theorem lookup_upsert_ne {α : Type} (l : List (String × α)) (k k' : String)
    (v : α) (hk : k' ≠ k) : (upsert l k v).lookup k' = l.lookup k' := by
  rw [upsert, List.lookup]
  have : (k' == k) = false := by simp [hk]
  rw [this]
  exact lookup_filter_ne_key l k k' hk

theorem nodup_filter_keys {α : Type} {l : List (String × α)}
    (hn : (l.map Prod.fst).Nodup) (p : String × α → Bool) :
    ((l.filter p).map Prod.fst).Nodup :=
  (((List.filter_sublist l : (l.filter p).Sublist l)).map Prod.fst).nodup hn

theorem nodup_upsert_keys {α : Type} {l : List (String × α)}
    (hn : (l.map Prod.fst).Nodup) (k : String) (v : α) :
    ((upsert l k v).map Prod.fst).Nodup := by
  rw [upsert]
  refine List.Nodup.cons ?_ (nodup_filter_keys hn _)
  intro hmem
  simp only [List.map_cons, List.mem_map] at hmem
  obtain ⟨p, hp, hfst⟩ := hmem
  rw [List.mem_filter] at hp
  simp [hfst] at hp

/-! ## Cleanup and observation lemmas -/

namespace InMemoryStorage

theorem WF_cleanup {s : InMemoryStorage} (hs : WF s) (t : ℚ) :
    WF (s.cleanup_expired t) :=
  ⟨nodup_filter_keys hs.1 _, nodup_filter_keys hs.2 _⟩

theorem WF_set {s : InMemoryStorage} (hs : WF s) (now : ℚ) (key : String)
    (v : Stored) (ttl : ℤ) : WF (s.set now key v ttl) :=
  ⟨nodup_upsert_keys hs.1 _ _, nodup_upsert_keys hs.2 _ _⟩

theorem WF_add_to_list {s : InMemoryStorage} (hs : WF s) (now : ℚ)
    (key : String) (v : ℚ) (ttl : ℤ) : WF (s.add_to_list now key v ttl) :=
  ⟨nodup_upsert_keys hs.1 _ _, nodup_upsert_keys hs.2 _ _⟩

theorem WF_cleanup_list {s : InMemoryStorage} (hs : WF s) (key : String)
    (cutoff : ℚ) : WF (s.cleanup_list key cutoff) := by
  rw [cleanup_list]
  rcases s.data.lookup key with _ | v
  · exact hs
  · rcases v with q | l
    · exact hs
    · exact ⟨nodup_upsert_keys hs.1 _ _, hs.2⟩

theorem increment_snd_eq (s : InMemoryStorage) (now : ℚ) (key : String)
    (window : ℤ) :
    (s.increment now key window).2 =
      (s.cleanup_expired now).set now key (.num ((s.increment now key window).1))
        window := rfl

theorem WF_increment {s : InMemoryStorage} (hs : WF s) (now : ℚ)
    (key : String) (window : ℤ) : WF (s.increment now key window).2 := by
  rw [increment_snd_eq]
  exact WF_set (WF_cleanup hs now) _ _ _ _

theorem get_snd_eq (s : InMemoryStorage) (now : ℚ) (key : String) :
    (s.get now key).2 = s.cleanup_expired now := rfl

theorem get_list_snd_eq (s : InMemoryStorage) (now : ℚ) (key : String) :
    (s.get_list now key).2 = s.cleanup_expired now := rfl

theorem data_cleanup_lookup {s : InMemoryStorage} (hs : WF s) (t : ℚ)
    (k : String) :
    (s.cleanup_expired t).data.lookup k = cleanLookup s t k := by
  rw [cleanup_expired, cleanLookup]
  rcases hd : s.data.lookup k with _ | v
  · simp only []
    exact lookup_filter_none hd
  · rcases he : s.expiry.lookup k with _ | e
    · simp only []
      exact lookup_filter_pos hd (by simp [he])
    · simp only []
      by_cases ht : t < e
      · rw [if_pos ht]
        exact lookup_filter_pos hd (by simp [he, ht])
      · rw [if_neg ht]
        exact lookup_filter_neg hs.1 hd (by simp [he, ht])

theorem expiry_cleanup_lookup {s : InMemoryStorage} (hs : WF s) (t : ℚ)
    (k : String) :
    (s.cleanup_expired t).expiry.lookup k =
      match s.expiry.lookup k with
      | some e => if t < e then some e else none
      | none => none := by
  rw [cleanup_expired]
  rcases he : s.expiry.lookup k with _ | e
  · simp only []
    exact lookup_filter_none he
  · simp only []
    by_cases ht : t < e
    · rw [if_pos ht]
      exact lookup_filter_pos he (by simp [ht])
    · rw [if_neg ht]
      exact lookup_filter_neg hs.2 he (by simp [ht])

theorem cleanLookup_cleanup {s : InMemoryStorage} (hs : WF s) {tA tB : ℚ}
    (hAB : tA ≤ tB) (k : String) :
    cleanLookup (s.cleanup_expired tA) tB k = cleanLookup s tB k := by
  unfold cleanLookup
  rw [data_cleanup_lookup hs, expiry_cleanup_lookup hs]
  unfold cleanLookup
  rcases hd : s.data.lookup k with _ | v <;>
    rcases he : s.expiry.lookup k with _ | e
  · simp [hd, he]
  · simp [hd, he]
  · simp [hd, he]
  · by_cases htA : tA < e
    · by_cases htB : tB < e <;> simp [hd, he, htA, htB]
    · have htB2 : ¬ tB < e := fun h => htA (lt_of_le_of_lt hAB h)
      simp [hd, he, htA, htB2]

theorem cleanLookup_set_ne {s : InMemoryStorage} (now t : ℚ)
    {k key : String} (v : Stored) (ttl : ℤ) (hk : k ≠ key) :
    cleanLookup (s.set now key v ttl) t k = cleanLookup s t k := by
  rw [cleanLookup, cleanLookup, set]
  rw [lookup_upsert_ne _ _ _ _ hk, lookup_upsert_ne _ _ _ _ hk]

theorem cleanLookup_add_to_list_ne {s : InMemoryStorage} (now t : ℚ)
    {k key : String} (v : ℚ) (ttl : ℤ) (hk : k ≠ key) :
    cleanLookup (s.add_to_list now key v ttl) t k = cleanLookup s t k := by
  rw [cleanLookup, cleanLookup, add_to_list]
  rw [lookup_upsert_ne _ _ _ _ hk, lookup_upsert_ne _ _ _ _ hk]

theorem cleanLookup_cleanup_list_ne {s : InMemoryStorage} (t : ℚ)
    {k key : String} (cutoff : ℚ) (hk : k ≠ key) :
    cleanLookup (s.cleanup_list key cutoff) t k = cleanLookup s t k := by
  rw [cleanup_list]
  rcases s.data.lookup key with _ | v
  · rfl
  · rcases v with q | l
    · rfl
    · rw [cleanLookup, cleanLookup]
      simp only []
      rw [lookup_upsert_ne _ _ _ _ hk]

theorem cleanLookup_increment_ne {s : InMemoryStorage} (hs : WF s)
    (now : ℚ) {t : ℚ} (hnt : now ≤ t) {k key : String} (window : ℤ)
    (hk : k ≠ key) :
    cleanLookup (s.increment now key window).2 t k = cleanLookup s t k := by
  rw [increment_snd_eq, cleanLookup_set_ne _ _ _ _ hk,
    cleanLookup_cleanup hs hnt]

theorem get_fst_clean {s : InMemoryStorage} (hs : WF s) (t : ℚ) (k : String) :
    (s.get t k).1 = cleanLookup s t k := by
  rw [get]
  exact data_cleanup_lookup hs t k

theorem get_list_fst_clean {s : InMemoryStorage} (hs : WF s) (t : ℚ)
    (k : String) :
    (s.get_list t k).1 =
      match cleanLookup s t k with
      | some (.list l) => l
      | _ => [] := by
  rw [get_list]
  simp only []
  rw [data_cleanup_lookup hs t k]

end InMemoryStorage

/-! ## Decimal representation lemmas -/

theorem digitChar_ne_colon (n : ℕ) : Nat.digitChar n ≠ ':' := by
  by_cases h : n < 16
  · interval_cases n <;> decide
  · rw [Nat.digitChar]
    iterate 16 rw [if_neg (by omega)]
    decide

theorem digitChar_ne_dash (n : ℕ) : Nat.digitChar n ≠ '-' := by
  by_cases h : n < 16
  · interval_cases n <;> decide
  · rw [Nat.digitChar]
    iterate 16 rw [if_neg (by omega)]
    decide

theorem toDigitsCore_acc (b : ℕ) : ∀ (f n : ℕ) (acc : List Char),
    Nat.toDigitsCore b f n acc = Nat.toDigitsCore b f n [] ++ acc := by
  intro f
  induction f with
  | zero => intro n acc; rfl
  | succ f ih =>
      intro n acc
      simp only [Nat.toDigitsCore]
      by_cases h : n / b = 0
      · simp [h]
      · rw [if_neg h, if_neg h, ih (n / b) (Nat.digitChar (n % b) :: acc),
          ih (n / b) [Nat.digitChar (n % b)], List.append_assoc,
          List.singleton_append]

theorem toDigitsCore_chars (b : ℕ) : ∀ (f n : ℕ) (acc : List Char),
    (∀ c ∈ acc, c ≠ ':' ∧ c ≠ '-') →
    ∀ c ∈ Nat.toDigitsCore b f n acc, c ≠ ':' ∧ c ≠ '-' := by
  intro f
  induction f with
  | zero =>
      intro n acc hacc c hc
      exact hacc c hc
  | succ f ih =>
      intro n acc hacc c hc
      simp only [Nat.toDigitsCore] at hc
      by_cases h : n / b = 0
      · rw [if_pos h] at hc
        rcases List.mem_cons.mp hc with h1 | h1
        · subst h1; exact ⟨digitChar_ne_colon _, digitChar_ne_dash _⟩
        · exact hacc c h1
      · rw [if_neg h] at hc
        refine ih (n / b) (Nat.digitChar (n % b) :: acc) ?_ c hc
        intro x hx
        rcases List.mem_cons.mp hx with h1 | h1
        · subst h1; exact ⟨digitChar_ne_colon _, digitChar_ne_dash _⟩
        · exact hacc x h1

theorem digitChar_val : ∀ d : ℕ, d < 10 → (Nat.digitChar d).toNat - 48 = d := by
  decide

theorem foldl_digits (l : List Char) : ∀ a : ℕ,
    l.foldl (fun a c => 10 * a + (c.toNat - 48)) a =
      a * 10 ^ l.length + digitsVal l := by
  induction l with
  | nil => intro a; simp [digitsVal]
  | cons c l ih =>
      intro a
      have h1 : digitsVal (c :: l) = (c.toNat - 48) * 10 ^ l.length + digitsVal l := by
        rw [digitsVal, List.foldl_cons, ih (10 * 0 + (c.toNat - 48))]
        congr 1
        ring
      rw [List.foldl_cons, ih (10 * a + (c.toNat - 48)), h1,
        List.length_cons, pow_succ]
      ring

theorem toDigitsCore_val : ∀ f n : ℕ, n < f →
    digitsVal (Nat.toDigitsCore 10 f n []) = n := by
  intro f
  induction f with
  | zero => intro n hn; omega
  | succ f ih =>
      intro n hn
      simp only [Nat.toDigitsCore]
      by_cases h : n / 10 = 0
      · rw [if_pos h]
        have hlt : n < 10 := by omega
        have hmod : n % 10 = n := Nat.mod_eq_of_lt hlt
        rw [digitsVal, List.foldl_cons, List.foldl_nil, hmod,
          digitChar_val n hlt]
        omega
      · rw [if_neg h, toDigitsCore_acc, digitsVal, List.foldl_append]
        have hdiv : n / 10 < f := by
          have h1 : n / 10 < n := Nat.div_lt_self (by omega) (by omega)
          omega
        rw [show (List.foldl (fun a c => 10 * a + (c.toNat - 48)) 0
            (Nat.toDigitsCore 10 f (n / 10) [])) = digitsVal
            (Nat.toDigitsCore 10 f (n / 10) []) from rfl, ih (n / 10) hdiv,
          List.foldl_cons, List.foldl_nil,
          digitChar_val (n % 10) (Nat.mod_lt n (by omega))]
        omega

theorem Nat_repr_val (n : ℕ) : digitsVal (Nat.repr n).data = n :=
  toDigitsCore_val (n + 1) n (Nat.lt_succ_self n)

theorem Nat_repr_inj {m n : ℕ} (h : Nat.repr m = Nat.repr n) : m = n := by
  have h2 := congrArg (fun s => digitsVal (String.data s)) h
  simpa [Nat_repr_val] using h2

theorem Nat_repr_chars (n : ℕ) : ∀ c ∈ (Nat.repr n).data, c ≠ ':' ∧ c ≠ '-' :=
  toDigitsCore_chars 10 (n + 1) n [] (by simp)

theorem Nat_repr_ne_nil (n : ℕ) : (Nat.repr n).data ≠ [] := by
  show Nat.toDigitsCore 10 (n + 1) n [] ≠ []
  simp only [Nat.toDigitsCore]
  by_cases h : n / 10 = 0
  · simp [h]
  · rw [if_neg h, toDigitsCore_acc]
    simp

theorem Int_repr_chars_ne_colon (i : ℤ) : ∀ c ∈ (Int.repr i).data, c ≠ ':' := by
  cases i with
  | ofNat m => exact fun c hc => (Nat_repr_chars m c hc).1
  | negSucc m =>
      intro c hc
      have : (Int.repr (Int.negSucc m)).data = '-' :: (Nat.repr (m + 1)).data := by
        show (("-" : String) ++ Nat.repr (m + 1)).data = _
        rw [String.data_append]
        rfl
      rw [this] at hc
      rcases List.mem_cons.mp hc with h1 | h1
      · subst h1; decide
      · exact (Nat_repr_chars (m + 1) c h1).1

theorem Int_repr_inj {i j : ℤ} (h : Int.repr i = Int.repr j) : i = j := by
  have hdash : ∀ n : ℕ, ∀ k : ℕ, Nat.repr n ≠ "-" ++ Nat.repr k := by
    intro n k hc
    have hd := congrArg String.data hc
    rw [String.data_append] at hd
    rcases hl : (Nat.repr n).data with _ | ⟨c, cs⟩
    · exact Nat_repr_ne_nil n hl
    · rw [hl] at hd
      have : ('-' : Char) :: (Nat.repr k).data = '-' :: (Nat.repr k).data := rfl
      have hd2 : c :: cs = '-' :: (Nat.repr k).data := hd
      injection hd2 with h1 _
      have := (Nat_repr_chars n c (by rw [hl]; simp)).2
      exact this h1
  cases i with
  | ofNat m =>
      cases j with
      | ofNat n =>
          have : m = n := Nat_repr_inj h
          simp [this]
      | negSucc n => exact absurd h (hdash m (n + 1))
  | negSucc m =>
      cases j with
      | ofNat n => exact absurd h.symm (hdash n (m + 1))
      | negSucc n =>
          have hd := congrArg String.data h
          have e1 : (Int.repr (Int.negSucc m)).data = '-' :: (Nat.repr (m + 1)).data := by
            show (("-" : String) ++ Nat.repr (m + 1)).data = _
            rw [String.data_append]; rfl
          have e2 : (Int.repr (Int.negSucc n)).data = '-' :: (Nat.repr (n + 1)).data := by
            show (("-" : String) ++ Nat.repr (n + 1)).data = _
            rw [String.data_append]; rfl
          rw [e1, e2] at hd
          injection hd with _ h2
          have h3 : m + 1 = n + 1 := Nat_repr_inj (String.ext h2)
          have h4 : m = n := by omega
          rw [h4]

/-! ## Key disjointness lemmas -/

theorem str_append_left_cancel {p a b : String} (h : p ++ a = p ++ b) :
    a = b := by
  have hd := congrArg String.data h
  rw [String.data_append, String.data_append] at hd
  exact String.ext ((List.append_right_inj p.data).mp hd)

theorem colon_split_aux : ∀ (a1 a2 r1 r2 : List Char),
    (∀ c ∈ a1, c ≠ ':') → (∀ c ∈ a2, c ≠ ':') →
    a1 ++ ':' :: r1 = a2 ++ ':' :: r2 → a1 = a2 ∧ r1 = r2 := by
  intro a1
  induction a1 with
  | nil =>
      intro a2 r1 r2 _ h2 heq
      cases a2 with
      | nil => simpa using heq
      | cons c a2 =>
          exfalso
          simp only [List.nil_append, List.cons_append] at heq
          injection heq with h1 _
          exact h2 c (by simp) h1.symm
  | cons c a1 ih =>
      intro a2 r1 r2 h1 h2 heq
      cases a2 with
      | nil =>
          exfalso
          simp only [List.nil_append, List.cons_append] at heq
          injection heq with hh _
          exact h1 c (by simp) hh
      | cons c2 a2 =>
          simp only [List.cons_append] at heq
          injection heq with hh ht
          obtain ⟨he1, he2⟩ := ih a2 r1 r2 (fun x hx => h1 x (by simp [hx]))
            (fun x hx => h2 x (by simp [hx])) ht
          exact ⟨by rw [hh, he1], he2⟩

theorem colon_split {l1 l2 r1 r2 : List Char}
    (h1 : ∀ c ∈ r1, c ≠ ':') (h2 : ∀ c ∈ r2, c ≠ ':')
    (heq : l1 ++ ':' :: r1 = l2 ++ ':' :: r2) : l1 = l2 ∧ r1 = r2 := by
  have hrev := congrArg List.reverse heq
  rw [List.reverse_append, List.reverse_cons, List.reverse_append,
    List.reverse_cons, List.append_assoc, List.append_assoc,
    List.singleton_append, List.singleton_append] at hrev
  obtain ⟨ha, hb⟩ := colon_split_aux r1.reverse r2.reverse l1.reverse l2.reverse
    (fun c hc => h1 c (List.mem_reverse.mp hc))
    (fun c hc => h2 c (List.mem_reverse.mp hc)) hrev
  exact ⟨List.reverse_injective hb, List.reverse_injective ha⟩

theorem colon_key_inj (p a b : String) (i j : ℤ)
    (h : p ++ a ++ ":" ++ Int.repr i = p ++ b ++ ":" ++ Int.repr j) :
    a = b ∧ i = j := by
  have hd := congrArg String.data h
  simp only [String.data_append] at hd
  obtain ⟨hl, hr⟩ := colon_split (Int_repr_chars_ne_colon i)
    (Int_repr_chars_ne_colon j)
    (show (p.data ++ a.data) ++ ':' :: (Int.repr i).data =
        (p.data ++ b.data) ++ ':' :: (Int.repr j).data by simpa using hd)
  refine ⟨String.ext ((List.append_right_inj p.data).mp hl), ?_⟩
  exact Int_repr_inj (String.ext hr)

theorem fw_window_key_inj {a b : String} {i j : ℤ}
    (h : FixedWindowLimiter.window_key a i = FixedWindowLimiter.window_key b j) :
    a = b ∧ i = j :=
  colon_key_inj "fw:" a b i j h

theorem swc_window_key_inj {a b : String} {i j : ℤ}
    (h : SlidingWindowCounterLimiter.window_key a i =
      SlidingWindowCounterLimiter.window_key b j) : a = b ∧ i = j :=
  colon_key_inj "swc:" a b i j h

theorem swl_log_key_inj {a b : String}
    (h : SlidingWindowLogLimiter.log_key a = SlidingWindowLogLimiter.log_key b) :
    a = b :=
  str_append_left_cancel h

theorem tokens_key_inj {a b : String}
    (h : TokenBucketLimiter.tokens_key a = TokenBucketLimiter.tokens_key b) :
    a = b :=
  str_append_left_cancel h

theorem last_key_inj {a b : String}
    (h : TokenBucketLimiter.last_key a = TokenBucketLimiter.last_key b) :
    a = b :=
  str_append_left_cancel h

theorem tokens_key_ne_last_key (a b : String) :
    TokenBucketLimiter.tokens_key a ≠ TokenBucketLimiter.last_key b := by
  intro h
  have hd := congrArg String.data h
  rw [TokenBucketLimiter.tokens_key, TokenBucketLimiter.last_key,
    String.data_append, String.data_append] at hd
  have h1 : ("tb:tokens:" : String).data =
      ['t', 'b', ':', 't', 'o', 'k', 'e', 'n', 's', ':'] := rfl
  have h2 : ("tb:last:" : String).data =
      ['t', 'b', ':', 'l', 'a', 's', 't', ':'] := rfl
  rw [h1, h2] at hd
  simp only [List.cons_append] at hd
  injection hd with e1 hd
  injection hd with e2 hd
  injection hd with e3 hd
  injection hd with e4 hd
  exact absurd e4 (by decide)

/-! ## Small characterization lemmas for the storage operations -/

theorem increment_fst {s : InMemoryStorage} (hs : WF s) (now : ℚ)
    (key : String) (window : ℤ) :
    (s.increment now key window).1 =
      (match cleanLookup s now key with
       | some (.num q) => q
       | _ => 0) + 1 := by
  rw [InMemoryStorage.increment]
  simp only []
  rw [InMemoryStorage.data_cleanup_lookup hs]

/-! ## Claim theorems -/

/-- C6: building a `RateLimitConfig` with non-positive quota or window fails at
construction time with a `ValueError` (and otherwise yields exactly the given
values, uncorrected), and building a `RateLimiter` fails at construction time
exactly when the algorithm name is outside the closed set of four names. -/
theorem claim6_construction_validation (m w : ℤ) (algorithm : String) :
    ((mkRateLimitConfig m w).isOk = true ↔ (0 < m ∧ 0 < w)) ∧
    (∀ c, mkRateLimitConfig m w = .ok c → c = ⟨m, w⟩) ∧
    ((RateLimiter.mk algorithm).isOk = true ↔ algorithm ∈ ALGORITHM_NAMES) := by
  refine ⟨?_, ?_, ?_⟩
  · rw [mkRateLimitConfig]
    by_cases h1 : m ≤ 0
    · simp [h1, Except.isOk, Except.toBool]
    · by_cases h2 : w ≤ 0
      · simp [h1, h2, Except.isOk, Except.toBool]
      · simp [h1, h2, Except.isOk, Except.toBool]
        all_goals omega
  · intro c hc
    rw [mkRateLimitConfig] at hc
    by_cases h1 : m ≤ 0
    · simp [h1] at hc
    · by_cases h2 : w ≤ 0
      · simp [h1, h2] at hc
      · simp [h1, h2] at hc
        exact hc.symm
  · rw [RateLimiter.mk, ALGORITHM_NAMES]
    by_cases h1 : algorithm = "token_bucket"
    · simp [h1, Except.isOk, Except.toBool]
    · by_cases h2 : algorithm = "sliding_window_log"
      · simp [h1, h2, Except.isOk, Except.toBool]
      · by_cases h3 : algorithm = "fixed_window"
        · simp [h1, h2, h3, Except.isOk, Except.toBool]
        · by_cases h4 : algorithm = "sliding_window_counter"
          · simp [h1, h2, h3, h4, Except.isOk, Except.toBool]
          · simp [h1, h2, h3, h4, Except.isOk, Except.toBool]

/-- Witness for C6 at concrete inputs. -/
theorem claim6_witness :
    (((mkRateLimitConfig 5 60).isOk = true ↔ (0 < (5 : ℤ) ∧ 0 < (60 : ℤ))) ∧
     (∀ c, mkRateLimitConfig 5 60 = .ok c → c = ⟨5, 60⟩) ∧
     ((RateLimiter.mk ("fixed_window")).isOk = true ↔
       ("fixed_window" : String) ∈ ALGORITHM_NAMES)) :=
  claim6_construction_validation 5 60 ("fixed_window")

/-- C3: every fixed-window call increments the counter keyed by
(identity, floor(now / windowSeconds)) with TTL = windowSeconds, admits iff the
post-increment count ≤ maxAdmissions, returns remaining = max(0, max − count),
resetAt = start of the next window, and retryAfter = nextWindowStart − now on
rejection. With maxAdmissions = 2 and windowSeconds = 1, two calls at t = 0 are
admitted, a third is denied, and any call at t ≥ 1 is admitted again. -/
theorem claim3_fixed_window (config : RateLimitConfig) (s : InMemoryStorage)
    (now : ℚ) (identifier : String) (t : ℚ) (ht : 1 ≤ t) :
    (FixedWindowLimiter.allow config s now identifier =
      (let window_id := Rat.floor (now / (config.window_seconds : ℚ))
       let key := FixedWindowLimiter.window_key identifier window_id
       let count := (s.increment now key config.window_seconds).1
       let next_window : ℚ := ((window_id + 1 : ℤ) : ℚ) * (config.window_seconds : ℚ)
       (⟨decide (count ≤ (config.max_requests : ℚ)),
         max 0 ((config.max_requests : ℚ) - count),
         next_window,
         if count ≤ (config.max_requests : ℚ) then none
         else some (next_window - now)⟩,
        (s.increment now key config.window_seconds).2))) ∧
    ((s.increment now (FixedWindowLimiter.window_key identifier
        (Rat.floor (now / (config.window_seconds : ℚ)))) config.window_seconds).2.expiry.lookup
      (FixedWindowLimiter.window_key identifier
        (Rat.floor (now / (config.window_seconds : ℚ)))) =
      some (now + (config.window_seconds : ℚ))) ∧
    ((runCalls (fun s u => FixedWindowLimiter.allow ⟨2, 1⟩ s u ("u"))
        emptyStorage [0, 0, 0]).1 = [true, true, false]) ∧
    ((FixedWindowLimiter.allow ⟨2, 1⟩
        (runCalls (fun s u => FixedWindowLimiter.allow ⟨2, 1⟩ s u ("u"))
          emptyStorage [0, 0, 0]).2 t ("u")).1.allowed = true) := by
  refine ⟨?_, ?_, ?_, ?_⟩
  · rcases hinc : s.increment now (FixedWindowLimiter.window_key identifier
        (Rat.floor (now / (config.window_seconds : ℚ)))) config.window_seconds
      with ⟨c, s1⟩
    rw [FixedWindowLimiter.allow]
    simp only [hinc]
    by_cases hc : c ≤ (config.max_requests : ℚ)
    · rw [if_pos hc, if_pos hc]
      have hmax : max 0 ((config.max_requests : ℚ) - c) =
          (config.max_requests : ℚ) - c :=
        max_eq_right (by linarith)
      simp [hc, hmax]
    · rw [if_neg hc, if_neg hc]
      have hmax : max 0 ((config.max_requests : ℚ) - c) = 0 :=
        max_eq_left (by linarith [lt_of_not_le hc])
      simp [hc, hmax]
  · rw [InMemoryStorage.increment]
    simp only [InMemoryStorage.set]
    exact lookup_upsert_self _ _ _
  · with_unfolding_all decide
  · have hs3 : (runCalls (fun s u => FixedWindowLimiter.allow ⟨2, 1⟩ s u ("u"))
        emptyStorage [0, 0, 0]).2 =
        ⟨[(FixedWindowLimiter.window_key ("u") 0, .num 3)],
         [(FixedWindowLimiter.window_key ("u") 0, 1)]⟩ := by
      with_unfolding_all rfl
    rw [hs3]
    rcases hinc : InMemoryStorage.increment
        ⟨[(FixedWindowLimiter.window_key ("u") 0, .num 3)],
         [(FixedWindowLimiter.window_key ("u") 0, 1)]⟩ t
        (FixedWindowLimiter.window_key ("u") (Rat.floor (t / ((1 : ℤ) : ℚ)))) 1
      with ⟨c, s4⟩
    have hwf : WF (⟨[(FixedWindowLimiter.window_key ("u") 0, .num 3)],
        [(FixedWindowLimiter.window_key ("u") 0, 1)]⟩ : InMemoryStorage) := by
      constructor <;> simp
    have hcl : cleanLookup
        ⟨[(FixedWindowLimiter.window_key ("u") 0, .num 3)],
         [(FixedWindowLimiter.window_key ("u") 0, 1)]⟩ t
        (FixedWindowLimiter.window_key ("u") (Rat.floor (t / ((1 : ℤ) : ℚ)))) =
        none := by
      rw [cleanLookup]
      by_cases hk : FixedWindowLimiter.window_key ("u")
          (Rat.floor (t / ((1 : ℤ) : ℚ))) = FixedWindowLimiter.window_key ("u") 0
      · rw [hk]
        have hl1 : List.lookup (FixedWindowLimiter.window_key ("u") 0)
            [(FixedWindowLimiter.window_key ("u") 0, Stored.num 3)] =
            some (.num 3) := by simp [List.lookup]
        have hl2 : List.lookup (FixedWindowLimiter.window_key ("u") 0)
            [(FixedWindowLimiter.window_key ("u") 0, (1 : ℚ))] = some 1 := by
          simp [List.lookup]
        rw [hl1, hl2]
        simp only []
        rw [if_neg (not_lt.mpr ht)]
      · have hl1 : List.lookup (FixedWindowLimiter.window_key ("u")
            (Rat.floor (t / ((1 : ℤ) : ℚ))))
            [(FixedWindowLimiter.window_key ("u") 0, Stored.num 3)] = none := by
          rw [List.lookup]
          have hbeq : (FixedWindowLimiter.window_key ("u")
              (Rat.floor (t / ((1 : ℤ) : ℚ))) ==
              FixedWindowLimiter.window_key ("u") 0) = false :=
            beq_eq_false_iff_ne.mpr hk
          rw [hbeq]
          rfl
        rw [hl1]
    have hcval : c = 1 := by
      have := increment_fst hwf t (FixedWindowLimiter.window_key ("u")
        (Rat.floor (t / ((1 : ℤ) : ℚ)))) 1
      rw [hinc] at this
      simp only [hcl] at this
      simpa using this
    rw [FixedWindowLimiter.allow]
    simp only [hinc]
    subst hcval
    rw [if_pos (by norm_num : (1 : ℚ) ≤ ((2 : ℤ) : ℚ))]

/-- Witness for C3 at concrete inputs. -/
theorem claim3_witness :
    ((FixedWindowLimiter.allow ⟨3, 2⟩ emptyStorage (1/2) ("alice") =
      (let window_id := Rat.floor ((1/2 : ℚ) / ((2 : ℤ) : ℚ))
       let key := FixedWindowLimiter.window_key ("alice") window_id
       let count := (emptyStorage.increment (1/2) key 2).1
       let next_window : ℚ := ((window_id + 1 : ℤ) : ℚ) * ((2 : ℤ) : ℚ)
       (⟨decide (count ≤ ((3 : ℤ) : ℚ)),
         max 0 (((3 : ℤ) : ℚ) - count),
         next_window,
         if count ≤ ((3 : ℤ) : ℚ) then none
         else some (next_window - (1/2))⟩,
        (emptyStorage.increment (1/2) key 2).2))) ∧
     (((emptyStorage.increment (1/2) (FixedWindowLimiter.window_key ("alice")
        (Rat.floor ((1/2 : ℚ) / ((2 : ℤ) : ℚ)))) 2).2.expiry.lookup
      (FixedWindowLimiter.window_key ("alice")
        (Rat.floor ((1/2 : ℚ) / ((2 : ℤ) : ℚ)))) =
      some ((1/2) + ((2 : ℤ) : ℚ)))) ∧
     ((runCalls (fun s u => FixedWindowLimiter.allow ⟨2, 1⟩ s u ("u"))
        emptyStorage [0, 0, 0]).1 = [true, true, false]) ∧
     ((FixedWindowLimiter.allow ⟨2, 1⟩
        (runCalls (fun s u => FixedWindowLimiter.allow ⟨2, 1⟩ s u ("u"))
          emptyStorage [0, 0, 0]).2 (3/2) ("u")).1.allowed = true)) :=
  claim3_fixed_window ⟨3, 2⟩ emptyStorage (1/2) ("alice") (3/2)
    (by norm_num)

theorem cleanup_expired_singleton_dead (k : String) (v : Stored) (e t : ℚ)
    (h : ¬ t < e) :
    (⟨[(k, v)], [(k, e)]⟩ : InMemoryStorage).cleanup_expired t =
      emptyStorage := by
  rw [InMemoryStorage.cleanup_expired]
  rw [emptyStorage]
  congr 1
  · rw [List.filter_cons]
    have hl : List.lookup k [(k, e)] = some e := by simp [List.lookup]
    simp [hl, h]
  · rw [List.filter_cons]
    simp [h]

/-- C2: every sliding-window-log call first prunes logged timestamps
≤ now − windowSeconds; if the pruned log has fewer than maxAdmissions entries
it appends now, admits, and reports remaining = maxAdmissions − len − 1
(pre-append length); otherwise it denies with remaining = 0 and
retryAfter = oldest + windowSeconds − now. With maxAdmissions = 2 and
windowSeconds = 2: calls at t = 0, 0 are admitted, calls at t = 0 and t = 1
are denied, and any call at t ≥ 2.001 is admitted. -/
theorem claim2_sliding_window_log (config : RateLimitConfig)
    (s : InMemoryStorage) (now : ℚ) (identifier : String) (L : List ℚ)
    (e : ℚ) (t2 : ℚ)
    (hL : s.data.lookup (SlidingWindowLogLimiter.log_key identifier) =
      some (.list L))
    (he : s.expiry.lookup (SlidingWindowLogLimiter.log_key identifier) =
      some e)
    (hlive : now < e) (h2001 : 2001/1000 ≤ t2) :
    (let w : ℚ := (config.window_seconds : ℚ)
     let P := L.filter (fun x => decide (now - w < x))
     let A := SlidingWindowLogLimiter.allow config s now identifier
     (A.1.allowed = decide ((P.length : ℤ) < config.max_requests)) ∧
     (A.1.remaining = if (P.length : ℤ) < config.max_requests
        then ((config.max_requests - P.length - 1 : ℤ) : ℚ) else 0) ∧
     (A.1.reset_at = now + w) ∧
     (A.1.retry_after = if (P.length : ℤ) < config.max_requests then none
        else some ((match P with | [] => now | t :: ts => ts.foldl min t)
          + w - now)) ∧
     ((P.length : ℤ) < config.max_requests →
        A.2.data.lookup (SlidingWindowLogLimiter.log_key identifier) =
          some (.list (P ++ [now])) ∧
        A.2.expiry.lookup (SlidingWindowLogLimiter.log_key identifier) =
          some (now + w))) ∧
    ((runCalls (fun s u => SlidingWindowLogLimiter.allow ⟨2, 2⟩ s u ("u"))
        emptyStorage [0, 0, 0, 1]).1 = [true, true, false, false]) ∧
    ((SlidingWindowLogLimiter.allow ⟨2, 2⟩
        (runCalls (fun s u => SlidingWindowLogLimiter.allow ⟨2, 2⟩ s u ("u"))
          emptyStorage [0, 0, 0, 1]).2 t2 ("u")).1.allowed = true) := by
  refine ⟨?_, by with_unfolding_all decide, ?_⟩
  · dsimp only
    have hlist : (s.cleanup_list (SlidingWindowLogLimiter.log_key identifier)
        (now - (config.window_seconds : ℚ))).data.lookup
        (SlidingWindowLogLimiter.log_key identifier) =
        some (.list (L.filter
          (fun x => decide (now - (config.window_seconds : ℚ) < x)))) := by
      rw [InMemoryStorage.cleanup_list, hL]
      exact lookup_upsert_self _ _ _
    have hexp : (s.cleanup_list (SlidingWindowLogLimiter.log_key identifier)
        (now - (config.window_seconds : ℚ))).expiry.lookup
        (SlidingWindowLogLimiter.log_key identifier) = some e := by
      rw [InMemoryStorage.cleanup_list, hL]
      exact he
    have hlook : ((s.cleanup_list (SlidingWindowLogLimiter.log_key identifier)
        (now - (config.window_seconds : ℚ))).cleanup_expired now).data.lookup
        (SlidingWindowLogLimiter.log_key identifier) =
        some (.list (L.filter
          (fun x => decide (now - (config.window_seconds : ℚ) < x)))) := by
      apply lookup_filter_pos hlist
      simp only [hexp]
      simp [hlive]
    have hget : (s.cleanup_list (SlidingWindowLogLimiter.log_key identifier)
        (now - (config.window_seconds : ℚ))).get_list now
        (SlidingWindowLogLimiter.log_key identifier) =
        (L.filter (fun x => decide (now - (config.window_seconds : ℚ) < x)),
         (s.cleanup_list (SlidingWindowLogLimiter.log_key identifier)
          (now - (config.window_seconds : ℚ))).cleanup_expired now) := by
      rw [InMemoryStorage.get_list]
      simp only [hlook]
    rw [SlidingWindowLogLimiter.allow]
    simp only [hget]
    by_cases hb : ((L.filter (fun x =>
        decide (now - (config.window_seconds : ℚ) < x))).length : ℤ) <
        config.max_requests
    · rw [if_pos hb]
      refine ⟨by simp [hb], by simp [hb], rfl, by simp [hb], ?_⟩
      intro _
      constructor
      · rw [InMemoryStorage.add_to_list]
        simp only [hlook]
        exact lookup_upsert_self _ _ _
      · rw [InMemoryStorage.add_to_list]
        exact lookup_upsert_self _ _ _
    · rw [if_neg hb]
      exact ⟨by simp [hb], by simp [hb], rfl, by simp [hb],
        fun h => absurd h hb⟩
  · have hs5 : (runCalls (fun s u => SlidingWindowLogLimiter.allow ⟨2, 2⟩ s u
        ("u")) emptyStorage [0, 0, 0, 1]).2 =
        ⟨[(SlidingWindowLogLimiter.log_key ("u"), .list [0, 0])],
         [(SlidingWindowLogLimiter.log_key ("u"), 2)]⟩ := by
      with_unfolding_all rfl
    rw [hs5]
    have hcl2 : (⟨[(SlidingWindowLogLimiter.log_key ("u"), .list [0, 0])],
        [(SlidingWindowLogLimiter.log_key ("u"), 2)]⟩ :
          InMemoryStorage).cleanup_list (SlidingWindowLogLimiter.log_key ("u"))
        (t2 - ((2 : ℤ) : ℚ)) =
        ⟨[(SlidingWindowLogLimiter.log_key ("u"), .list [])],
         [(SlidingWindowLogLimiter.log_key ("u"), 2)]⟩ := by
      rw [InMemoryStorage.cleanup_list]
      have hl : List.lookup (SlidingWindowLogLimiter.log_key ("u"))
          [(SlidingWindowLogLimiter.log_key ("u"), Stored.list [0, 0])] =
          some (.list [0, 0]) := by simp [List.lookup]
      rw [hl]
      have hflt : ¬ (t2 < 2) := by linarith
      simp [upsert, List.filter, hflt, List.lookup]
    rw [SlidingWindowLogLimiter.allow]
    simp only [hcl2]
    have hdead : (⟨[(SlidingWindowLogLimiter.log_key ("u"), .list [])],
        [(SlidingWindowLogLimiter.log_key ("u"), 2)]⟩ :
          InMemoryStorage).cleanup_expired t2 = emptyStorage := by
      apply cleanup_expired_singleton_dead
      linarith
    have hget2 : (⟨[(SlidingWindowLogLimiter.log_key ("u"), .list [])],
        [(SlidingWindowLogLimiter.log_key ("u"), 2)]⟩ :
          InMemoryStorage).get_list t2 (SlidingWindowLogLimiter.log_key ("u")) =
        ([], emptyStorage) := by
      rw [InMemoryStorage.get_list]
      rw [hdead]
      rfl
    simp only [hget2]
    rw [if_pos (by norm_num : ((List.length ([] : List ℚ) : ℤ) < 2))]

/-- Witness for C2: the concrete-trace component at a live stored log. -/
theorem claim2_witness :
    (runCalls (fun s u => SlidingWindowLogLimiter.allow ⟨2, 2⟩ s u ("u"))
        emptyStorage [0, 0, 0, 1]).1 = [true, true, false, false] :=
  (claim2_sliding_window_log ⟨2, 2⟩
    ⟨[(SlidingWindowLogLimiter.log_key ("w"), .list [0])],
     [(SlidingWindowLogLimiter.log_key ("w"), 2)]⟩ 1 ("w") [0] 2 3
    (by with_unfolding_all rfl) (by with_unfolding_all rfl) (by norm_num)
    (by norm_num)).2.1

/-- C4: every token-bucket call refills the bucket as
tokens = min(maxAdmissions, tokens + (now − lastRefill) × refillRate) with
refillRate = maxAdmissions / windowSeconds (initializing
tokens = maxAdmissions and lastRefill = now when no state exists), admits and
consumes one token iff tokens ≥ 1 and otherwise denies with
retryAfter = (1 − tokens)/refillRate, and persists the updated (tokens, now)
with a TTL of 2 × windowSeconds. The identity `identifier` has stored live
state, the identity `fresh` has none. -/
theorem claim4_token_bucket (config : RateLimitConfig) (s : InMemoryStorage)
    (now : ℚ) (identifier fresh : String) (tok last et el : ℚ)
    (htok : s.data.lookup (TokenBucketLimiter.tokens_key identifier) =
      some (.num tok))
    (hlast : s.data.lookup (TokenBucketLimiter.last_key identifier) =
      some (.num last))
    (hetok : s.expiry.lookup (TokenBucketLimiter.tokens_key identifier) =
      some et)
    (hel : s.expiry.lookup (TokenBucketLimiter.last_key identifier) = some el)
    (hlive1 : now < et) (hlive2 : now < el)
    (hnone : s.data.lookup (TokenBucketLimiter.tokens_key fresh) = none) :
    (let r : ℚ := (config.max_requests : ℚ) / (config.window_seconds : ℚ)
     let tokens1 := min (config.max_requests : ℚ) (tok + (now - last) * r)
     let tokens2 := if (1 : ℚ) ≤ tokens1 then tokens1 - 1 else tokens1
     let A := TokenBucketLimiter.allow config s now identifier
     (A.1.allowed = decide ((1 : ℚ) ≤ tokens1)) ∧
     (A.1.retry_after = if (1 : ℚ) ≤ tokens1 then none
        else some ((1 - tokens1) / r)) ∧
     (A.1.remaining = ((pyInt tokens2 : ℤ) : ℚ)) ∧
     (A.1.reset_at = now + ((config.max_requests : ℚ) - tokens2) / r) ∧
     (A.2.data.lookup (TokenBucketLimiter.tokens_key identifier) =
        some (.num tokens2)) ∧
     (A.2.data.lookup (TokenBucketLimiter.last_key identifier) =
        some (.num now)) ∧
     (A.2.expiry.lookup (TokenBucketLimiter.tokens_key identifier) =
        some (now + 2 * (config.window_seconds : ℚ))) ∧
     (A.2.expiry.lookup (TokenBucketLimiter.last_key identifier) =
        some (now + 2 * (config.window_seconds : ℚ)))) ∧
    (let B := TokenBucketLimiter.allow config s now fresh
     (B.1.allowed = decide ((1 : ℚ) ≤ (config.max_requests : ℚ))) ∧
     (B.2.data.lookup (TokenBucketLimiter.tokens_key fresh) =
        some (.num (if (1 : ℚ) ≤ (config.max_requests : ℚ)
          then (config.max_requests : ℚ) - 1 else (config.max_requests : ℚ)))) ∧
     (B.2.data.lookup (TokenBucketLimiter.last_key fresh) =
        some (.num now))) := by
  constructor
  · dsimp only
    have h1 : ((s.cleanup_expired now).data.lookup
        (TokenBucketLimiter.tokens_key identifier)) = some (.num tok) := by
      apply lookup_filter_pos htok
      simp only [hetok]
      simp [hlive1]
    have h2 : ((s.cleanup_expired now).data.lookup
        (TokenBucketLimiter.last_key identifier)) = some (.num last) := by
      apply lookup_filter_pos hlast
      simp only [hel]
      simp [hlive2]
    have h2e : ((s.cleanup_expired now).expiry.lookup
        (TokenBucketLimiter.last_key identifier)) = some el := by
      apply lookup_filter_pos hel
      simp [hlive2]
    have h3 : (((s.cleanup_expired now).cleanup_expired now).data.lookup
        (TokenBucketLimiter.last_key identifier)) = some (.num last) := by
      apply lookup_filter_pos h2
      simp only [h2e]
      simp [hlive2]
    rw [TokenBucketLimiter.allow]
    simp only [InMemoryStorage.get, h1, h3]
    have hr : TokenBucketLimiter.refill_rate config =
        (config.max_requests : ℚ) / (config.window_seconds : ℚ) := rfl
    rw [hr]
    set tokens1 := min (config.max_requests : ℚ)
      (tok + (now - last) * ((config.max_requests : ℚ) /
        (config.window_seconds : ℚ))) with htokens1
    have hne := tokens_key_ne_last_key identifier identifier
    have httl : now + ((config.window_seconds * 2 : ℤ) : ℚ) =
        now + 2 * (config.window_seconds : ℚ) := by
      push_cast
      ring
    by_cases hge : (1 : ℚ) ≤ tokens1
    · simp only [if_pos hge]
      refine ⟨by simp [hge], by simp, by simp, by simp, ?_, ?_, ?_, ?_⟩
      · rw [InMemoryStorage.set, InMemoryStorage.set]
        simp only []
        rw [lookup_upsert_ne _ _ _ _ hne]
        simpa using lookup_upsert_self _ _ _
      · rw [InMemoryStorage.set, InMemoryStorage.set]
        simp only []
        simpa using lookup_upsert_self _ _ _
      · rw [InMemoryStorage.set, InMemoryStorage.set]
        simp only []
        rw [lookup_upsert_ne _ _ _ _ hne, lookup_upsert_self, httl]
      · rw [InMemoryStorage.set, InMemoryStorage.set]
        simp only []
        rw [lookup_upsert_self, httl]
    · simp only [if_neg hge]
      refine ⟨by simp [hge], by simp, by simp, by simp, ?_, ?_, ?_, ?_⟩
      · rw [InMemoryStorage.set, InMemoryStorage.set]
        simp only []
        rw [lookup_upsert_ne _ _ _ _ hne]
        simpa using lookup_upsert_self _ _ _
      · rw [InMemoryStorage.set, InMemoryStorage.set]
        simp only []
        simpa using lookup_upsert_self _ _ _
      · rw [InMemoryStorage.set, InMemoryStorage.set]
        simp only []
        rw [lookup_upsert_ne _ _ _ _ hne, lookup_upsert_self, httl]
      · rw [InMemoryStorage.set, InMemoryStorage.set]
        simp only []
        rw [lookup_upsert_self, httl]
  · dsimp only
    have h1 : ((s.cleanup_expired now).data.lookup
        (TokenBucketLimiter.tokens_key fresh)) = none :=
      lookup_filter_none hnone
    rw [TokenBucketLimiter.allow]
    simp only [InMemoryStorage.get, h1]
    have hzero : ((config.max_requests : ℚ) + (now - now) *
        TokenBucketLimiter.refill_rate config) = (config.max_requests : ℚ) := by
      ring
    have hmin : min (config.max_requests : ℚ) ((config.max_requests : ℚ) +
        (now - now) * TokenBucketLimiter.refill_rate config) =
        (config.max_requests : ℚ) := by
      rw [hzero]
      exact min_self _
    have hne := tokens_key_ne_last_key fresh fresh
    by_cases hge : (1 : ℚ) ≤ (config.max_requests : ℚ)
    · rw [hmin]
      simp only [if_pos hge]
      refine ⟨by simp [hge], ?_, ?_⟩
      · rw [InMemoryStorage.set, InMemoryStorage.set]
        simp only []
        rw [lookup_upsert_ne _ _ _ _ hne]
        simpa using lookup_upsert_self _ _ _
      · rw [InMemoryStorage.set, InMemoryStorage.set]
        simp only []
        simpa using lookup_upsert_self _ _ _
    · rw [hmin]
      simp only [if_neg hge]
      refine ⟨by simp [hge], ?_, ?_⟩
      · rw [InMemoryStorage.set, InMemoryStorage.set]
        simp only []
        rw [lookup_upsert_ne _ _ _ _ hne]
        simpa using lookup_upsert_self _ _ _
      · rw [InMemoryStorage.set, InMemoryStorage.set]
        simp only []
        simpa using lookup_upsert_self _ _ _

/-- Witness for C4: a bucket with one stored token refilled by half a token
admits and leaves 0.5 tokens; the fresh identity is admitted with a full
bucket minus one. -/
theorem claim4_witness :
    ((TokenBucketLimiter.allow ⟨2, 2⟩
      ⟨[(TokenBucketLimiter.tokens_key ("a"), .num 1),
        (TokenBucketLimiter.last_key ("a"), .num 0)],
       [(TokenBucketLimiter.tokens_key ("a"), 4),
        (TokenBucketLimiter.last_key ("a"), 4)]⟩
      (1/2) ("a")).1.allowed = decide ((1 : ℚ) ≤ min ((2 : ℤ) : ℚ)
        (1 + ((1/2 : ℚ) - 0) * (((2 : ℤ) : ℚ) / ((2 : ℤ) : ℚ))))) ∧
    ((TokenBucketLimiter.allow ⟨2, 2⟩
      ⟨[(TokenBucketLimiter.tokens_key ("a"), .num 1),
        (TokenBucketLimiter.last_key ("a"), .num 0)],
       [(TokenBucketLimiter.tokens_key ("a"), 4),
        (TokenBucketLimiter.last_key ("a"), 4)]⟩
      (1/2) ("b")).1.allowed = decide ((1 : ℚ) ≤ ((2 : ℤ) : ℚ))) := by
  have h := claim4_token_bucket ⟨2, 2⟩
    ⟨[(TokenBucketLimiter.tokens_key ("a"), .num 1),
      (TokenBucketLimiter.last_key ("a"), .num 0)],
     [(TokenBucketLimiter.tokens_key ("a"), 4),
      (TokenBucketLimiter.last_key ("a"), 4)]⟩
    (1/2) ("a") ("b") 1 0 4 4
    (by with_unfolding_all rfl) (by with_unfolding_all rfl)
    (by with_unfolding_all rfl) (by with_unfolding_all rfl)
    (by norm_num) (by norm_num) (by with_unfolding_all rfl)
  exact ⟨h.1.1, h.2.1⟩

theorem max_zero_pyInt (x : ℚ) : max 0 (pyInt x) = max 0 ⌊x⌋ := by
  rw [pyInt]
  by_cases h : 0 ≤ x
  · rw [if_pos h]
  · rw [if_neg h]
    have h1 : ⌈x⌉ ≤ 0 := Int.ceil_le.mpr (by exact_mod_cast le_of_lt (lt_of_not_le h))
    have h2 : ⌊x⌋ ≤ 0 := le_trans (Int.floor_le_ceil x) h1
    rw [max_eq_left h1, max_eq_left h2]

/-- C5: every sliding-window-counter call computes
weighted = previousCount × (1 − elapsedFraction) + currentCount with
elapsedFraction = (now mod windowSeconds) / windowSeconds; if
weighted < maxAdmissions it increments the current-window counter with
TTL = 2 × windowSeconds, admits, and reports
remaining = floor(maxAdmissions − weighted − 1) floored at 0; otherwise it
denies with retryAfter = (1 − elapsedFraction) × windowSeconds. -/
theorem claim5_sliding_window_counter (config : RateLimitConfig)
    (s : InMemoryStorage) (now : ℚ) (identifier : String) (hs : WF s) :
    (let w : ℚ := (config.window_seconds : ℚ)
     let ck := SlidingWindowCounterLimiter.window_key identifier
       (Rat.floor (now / w))
     let pk := SlidingWindowCounterLimiter.window_key identifier
       (Rat.floor (now / w) - 1)
     let cc : ℚ := match cleanLookup s now ck with
       | some (.num q) => q
       | _ => 0
     let pc : ℚ := match cleanLookup s now pk with
       | some (.num q) => q
       | _ => 0
     let ef := (now - (Rat.floor (now / w) : ℚ) * w) / w
     let weighted := pc * (1 - ef) + cc
     let A := SlidingWindowCounterLimiter.allow config s now identifier
     (A.1.allowed = decide (weighted < (config.max_requests : ℚ))) ∧
     (A.1.remaining = if weighted < (config.max_requests : ℚ)
        then ((max 0 ⌊(config.max_requests : ℚ) - weighted - 1⌋ : ℤ) : ℚ)
        else 0) ∧
     (A.1.reset_at = (Rat.floor (now / w) : ℚ) * w + w) ∧
     (A.1.retry_after = if weighted < (config.max_requests : ℚ) then none
        else some ((1 - ef) * w)) ∧
     (weighted < (config.max_requests : ℚ) →
        A.2.data.lookup ck = some (.num (cc + 1)) ∧
        A.2.expiry.lookup ck = some (now + 2 * w))) := by
  dsimp only
  rw [SlidingWindowCounterLimiter.allow]
  simp only [InMemoryStorage.get]
  rw [InMemoryStorage.data_cleanup_lookup hs,
    InMemoryStorage.data_cleanup_lookup (InMemoryStorage.WF_cleanup hs now),
    InMemoryStorage.cleanLookup_cleanup hs (le_refl now)]
  have httl : now + ((config.window_seconds * 2 : ℤ) : ℚ) =
      now + 2 * (config.window_seconds : ℚ) := by
    push_cast
    ring
  split_ifs with hb
  · refine ⟨by simp [hb], ?_, rfl, rfl, ?_⟩
    · simp only []
      rw [max_zero_pyInt]
    · intro _
      have hwf1 := InMemoryStorage.WF_cleanup hs now
      have hwf2 := InMemoryStorage.WF_cleanup hwf1 now
      rw [InMemoryStorage.increment_snd_eq]
      constructor
      · rw [InMemoryStorage.set]
        simp only []
        rw [lookup_upsert_self]
        rw [increment_fst hwf2,
          InMemoryStorage.cleanLookup_cleanup hwf1 (le_refl now),
          InMemoryStorage.cleanLookup_cleanup hs (le_refl now)]
      · rw [InMemoryStorage.set]
        simp only []
        rw [lookup_upsert_self, httl]
  · exact ⟨by simp [hb], by simp, rfl, rfl, fun h => absurd h hb⟩

/-- Witness for C5 at a concrete state: previous window holds 1 admission,
current window none, checked midway through the current window. -/
theorem claim5_witness :
    ((SlidingWindowCounterLimiter.allow ⟨2, 2⟩
      ⟨[(SlidingWindowCounterLimiter.window_key ("a") 0, .num 1)],
       [(SlidingWindowCounterLimiter.window_key ("a") 0, 4)]⟩
      3 ("a")).1.allowed = decide
        ((match cleanLookup
            ⟨[(SlidingWindowCounterLimiter.window_key ("a") 0, .num 1)],
             [(SlidingWindowCounterLimiter.window_key ("a") 0, 4)]⟩ 3
            (SlidingWindowCounterLimiter.window_key ("a")
              (Rat.floor ((3 : ℚ) / ((2 : ℤ) : ℚ)) - 1)) with
          | some (.num q) => q
          | _ => 0) *
          (1 - ((3 : ℚ) - (Rat.floor ((3 : ℚ) / ((2 : ℤ) : ℚ)) : ℚ) *
            ((2 : ℤ) : ℚ)) / ((2 : ℤ) : ℚ)) +
          (match cleanLookup
            ⟨[(SlidingWindowCounterLimiter.window_key ("a") 0, .num 1)],
             [(SlidingWindowCounterLimiter.window_key ("a") 0, 4)]⟩ 3
            (SlidingWindowCounterLimiter.window_key ("a")
              (Rat.floor ((3 : ℚ) / ((2 : ℤ) : ℚ)))) with
          | some (.num q) => q
          | _ => 0) < ((2 : ℤ) : ℚ))) :=
  (claim5_sliding_window_counter ⟨2, 2⟩
    ⟨[(SlidingWindowCounterLimiter.window_key ("a") 0, .num 1)],
     [(SlidingWindowCounterLimiter.window_key ("a") 0, 4)]⟩
    3 ("a") (by constructor <;> simp)).1

/-- C7: a function wrapped by the rate_limit decorator executes its body
exactly once and returns its value when the admission check allows, and
executes it zero times — raising RateLimitExceeded carrying the result, whose
retry_after is non-null — when the check denies. -/
theorem claim7_wrapper_semantics {β : Type} (alg : Algorithm)
    (config : RateLimitConfig)
    (key_func : Option (List String → List (String × String) → String))
    (func : List String → List (String × String) → β)
    (s : InMemoryStorage) (now : ℚ) (args : List String)
    (kwargs : List (String × String)) :
    (let identifier :=
       match key_func with
       | some kf => kf args kwargs
       | none =>
           match args with
           | a :: _ => a
           | [] => "default"
     let R := RateLimiter.allow alg config s now identifier
     (rate_limit_wrapper alg config key_func func s now args kwargs =
       if R.1.allowed then (.ok (func args kwargs), R.2, 1)
       else (.error ⟨"Rate limit exceeded", R.1⟩, R.2, 0)) ∧
     ((R.1.allowed || R.1.retry_after.isSome) = true)) := by
  dsimp only
  constructor
  · rfl
  · cases alg
    · rw [RateLimiter.allow, TokenBucketLimiter.allow]
      dsimp only
      split <;> simp
    · rw [RateLimiter.allow, SlidingWindowLogLimiter.allow]
      dsimp only
      split <;> simp
    · rw [RateLimiter.allow, FixedWindowLimiter.allow]
      dsimp only
      split <;> simp
    · rw [RateLimiter.allow, SlidingWindowCounterLimiter.allow]
      dsimp only
      split <;> simp

/-- C10: when the decorator has no key_func and the call has no positional
arguments, the admission check uses the fixed identifier "default"; all such
keyword-only invocations therefore share one quota: with maxAdmissions = 1,
a first keyword-only call is admitted and a second one with different keyword
arguments is denied. -/
theorem claim10_default_identity {β : Type} (alg : Algorithm)
    (config : RateLimitConfig)
    (func : List String → List (String × String) → β)
    (s : InMemoryStorage) (now : ℚ) (kwargs : List (String × String)) :
    (rate_limit_wrapper alg config none func s now [] kwargs =
      (let R := RateLimiter.allow alg config s now ("default")
       if R.1.allowed then (.ok (func [] kwargs), R.2, 1)
       else (.error ⟨"Rate limit exceeded", R.1⟩, R.2, 0))) ∧
    ((rate_limit_wrapper .sliding_window_counter ⟨1, 60⟩ none
        (fun _ _ => (0 : ℕ)) emptyStorage 0 [] [("k", "v1")]).1 =
      .ok 0) ∧
    ((rate_limit_wrapper .sliding_window_counter ⟨1, 60⟩ none
        (fun _ _ => (0 : ℕ))
        (rate_limit_wrapper .sliding_window_counter ⟨1, 60⟩ none
          (fun _ _ => (0 : ℕ)) emptyStorage 0 [] [("k", "v1")]).2.1
        0 [] [("k", "v2")]).1 =
      .error ⟨"Rate limit exceeded", ⟨false, 0, 60, some 60⟩⟩) := by
  refine ⟨rfl, ?_, ?_⟩
  · with_unfolding_all rfl
  · with_unfolding_all rfl

/-- Counterexample to C8: `add_to_list` does not purge expired keys. A list
key written at t = 0 with TTL 1 is expired at t = 2 (reads see it as absent),
yet `add_to_list` at t = 2 appends to the stale deque, and the next read
observes the expired key's old value 0 again. -/
theorem claim8_counterexample :
    (((emptyStorage.add_to_list 0 ("k") 0 1).get_list 2 ("k")).1 = []) ∧
    ((((emptyStorage.add_to_list 0 ("k") 0 1).add_to_list 2 ("k") 5 1).get_list
        2 ("k")).1 = [0, 5]) := by
  with_unfolding_all decide

/-- C8 amended: expired keys are lazily purged at the start of `increment`,
`get` and `get_list` (the operations that call `_cleanup_expired`), so expired
keys behave as absent on every read — `get` returns none, `get_list` returns
the empty list — and a subsequent `increment` restarts the counter from zero.
The other operations do not purge; `add_to_list` in particular can revive an
expired key's old list (see the counterexample). -/
theorem claim8_amended (s : InMemoryStorage) (k : String) (e now : ℚ)
    (ttl : ℤ) (he : s.expiry.lookup k = some e) (hdead : e ≤ now)
    (hwf : WF s) :
    ((s.get now k).1 = none) ∧
    ((s.get_list now k).1 = []) ∧
    ((s.increment now k ttl).1 = 1) := by
  have hcl : cleanLookup s now k = none := by
    rw [cleanLookup]
    rcases hd : s.data.lookup k with _ | v
    · simp
    · rw [he]
      simp [not_lt.mpr hdead]
  refine ⟨?_, ?_, ?_⟩
  · rw [InMemoryStorage.get_fst_clean hwf, hcl]
  · rw [InMemoryStorage.get_list_fst_clean hwf, hcl]
  · rw [increment_fst hwf, hcl]
    norm_num

/-- Witness for C8 amended at a concrete expired key. -/
theorem claim8_witness :
    (((⟨[(("k" : String), Stored.num 7)], [(("k" : String), 1)]⟩ :
        InMemoryStorage).get 2 ("k")).1 = none) ∧
    (((⟨[(("k" : String), Stored.num 7)], [(("k" : String), 1)]⟩ :
        InMemoryStorage).get_list 2 ("k")).1 = []) ∧
    (((⟨[(("k" : String), Stored.num 7)], [(("k" : String), 1)]⟩ :
        InMemoryStorage).increment 2 ("k") 1).1 = 1) :=
  claim8_amended ⟨[(("k" : String), Stored.num 7)], [(("k" : String), 1)]⟩
    ("k") 1 2 1 (by with_unfolding_all rfl) (by norm_num)
    (by constructor <;> simp)

/-! ## Frame lemmas: what one allow call can touch -/

namespace InMemoryStorage

theorem fw_allow_snd (config : RateLimitConfig) (s : InMemoryStorage)
    (now : ℚ) (identifier : String) :
    (FixedWindowLimiter.allow config s now identifier).2 =
      (s.increment now (FixedWindowLimiter.window_key identifier
        (Rat.floor (now / (config.window_seconds : ℚ)))) config.window_seconds).2 := by
  rw [FixedWindowLimiter.allow]
  dsimp only
  split <;> rfl

theorem tb_allow_snd (config : RateLimitConfig) (s : InMemoryStorage)
    (now : ℚ) (identifier : String) : ∃ v : Stored,
    (TokenBucketLimiter.allow config s now identifier).2 =
      (((s.cleanup_expired now).cleanup_expired now).set now
        (TokenBucketLimiter.tokens_key identifier) v
        (config.window_seconds * 2)).set now
        (TokenBucketLimiter.last_key identifier) (.num now)
        (config.window_seconds * 2) := by
  exact ⟨_, rfl⟩

theorem WF_allow (alg : Algorithm) (config : RateLimitConfig)
    (s : InMemoryStorage) (t : ℚ) (identifier : String) (hwf : WF s) :
    WF (RateLimiter.allow alg config s t identifier).2 := by
  cases alg
  · obtain ⟨v, hv⟩ := tb_allow_snd config s t identifier
    rw [RateLimiter.allow]
    rw [show (TokenBucketLimiter.allow config s t identifier).2 = _ from hv]
    exact WF_set (WF_set (WF_cleanup (WF_cleanup hwf t) t) t _ _ _) t _ _ _
  · rw [RateLimiter.allow, SlidingWindowLogLimiter.allow]
    simp only [InMemoryStorage.get_list]
    split
    · exact WF_add_to_list (WF_cleanup (WF_cleanup_list hwf _ _) t) t _ _ _
    · exact WF_cleanup (WF_cleanup_list hwf _ _) t
  · rw [RateLimiter.allow, fw_allow_snd]
    exact WF_increment hwf t _ _
  · rw [RateLimiter.allow, SlidingWindowCounterLimiter.allow]
    simp only [InMemoryStorage.get]
    split
    · exact WF_increment (WF_cleanup (WF_cleanup hwf t) t) t _ _
    · exact WF_cleanup (WF_cleanup hwf t) t

theorem tb_frame (config : RateLimitConfig) (s : InMemoryStorage)
    {tA tB : ℚ} (A k : String) (hwf : WF s) (hle : tA ≤ tB)
    (h1 : k ≠ TokenBucketLimiter.tokens_key A)
    (h2 : k ≠ TokenBucketLimiter.last_key A) :
    cleanLookup (TokenBucketLimiter.allow config s tA A).2 tB k =
      cleanLookup s tB k := by
  obtain ⟨v, hv⟩ := tb_allow_snd config s tA A
  rw [hv, cleanLookup_set_ne _ _ _ _ h2, cleanLookup_set_ne _ _ _ _ h1,
    cleanLookup_cleanup (WF_cleanup hwf tA) hle, cleanLookup_cleanup hwf hle]

theorem swl_frame (config : RateLimitConfig) (s : InMemoryStorage)
    {tA tB : ℚ} (A k : String) (hwf : WF s) (hle : tA ≤ tB)
    (h1 : k ≠ SlidingWindowLogLimiter.log_key A) :
    cleanLookup (SlidingWindowLogLimiter.allow config s tA A).2 tB k =
      cleanLookup s tB k := by
  rw [SlidingWindowLogLimiter.allow]
  simp only [InMemoryStorage.get_list]
  split
  · rw [cleanLookup_add_to_list_ne _ _ _ _ h1,
      cleanLookup_cleanup (WF_cleanup_list hwf _ _) hle,
      cleanLookup_cleanup_list_ne _ _ h1]
  · rw [cleanLookup_cleanup (WF_cleanup_list hwf _ _) hle,
      cleanLookup_cleanup_list_ne _ _ h1]

theorem fw_frame (config : RateLimitConfig) (s : InMemoryStorage)
    {tA tB : ℚ} (A k : String) (hwf : WF s) (hle : tA ≤ tB)
    (h1 : k ≠ FixedWindowLimiter.window_key A
      (Rat.floor (tA / (config.window_seconds : ℚ)))) :
    cleanLookup (FixedWindowLimiter.allow config s tA A).2 tB k =
      cleanLookup s tB k := by
  rw [fw_allow_snd]
  exact cleanLookup_increment_ne hwf tA hle _ h1

theorem swc_frame (config : RateLimitConfig) (s : InMemoryStorage)
    {tA tB : ℚ} (A k : String) (hwf : WF s) (hle : tA ≤ tB)
    (h1 : k ≠ SlidingWindowCounterLimiter.window_key A
      (Rat.floor (tA / (config.window_seconds : ℚ)))) :
    cleanLookup (SlidingWindowCounterLimiter.allow config s tA A).2 tB k =
      cleanLookup s tB k := by
  rw [SlidingWindowCounterLimiter.allow]
  simp only [InMemoryStorage.get]
  split
  · rw [cleanLookup_increment_ne (WF_cleanup (WF_cleanup hwf tA) tA) tA hle _ h1,
      cleanLookup_cleanup (WF_cleanup hwf tA) hle, cleanLookup_cleanup hwf hle]
  · rw [cleanLookup_cleanup (WF_cleanup hwf tA) hle, cleanLookup_cleanup hwf hle]

theorem allow_frame (alg : Algorithm) (config : RateLimitConfig)
    (s : InMemoryStorage) {tA tB : ℚ} (A k : String) (hwf : WF s)
    (hle : tA ≤ tB) (hk : k ∉ touchedKeys alg config A tA) :
    cleanLookup (RateLimiter.allow alg config s tA A).2 tB k =
      cleanLookup s tB k := by
  cases alg
  · simp only [touchedKeys, List.mem_cons, List.mem_singleton] at hk
    push_neg at hk
    exact tb_frame config s A k hwf hle hk.1 hk.2.1
  · simp only [touchedKeys, List.mem_singleton] at hk
    exact swl_frame config s A k hwf hle hk
  · simp only [touchedKeys, List.mem_singleton] at hk
    exact fw_frame config s A k hwf hle hk
  · simp only [touchedKeys, List.mem_singleton] at hk
    exact swc_frame config s A k hwf hle hk

end InMemoryStorage

/-! ## Result congruence: a decision depends only on the identity's own keys -/

namespace InMemoryStorage

theorem cleanLookup_eq_some {s : InMemoryStorage} {t : ℚ} {k : String}
    {v : Stored} (h : cleanLookup s t k = some v) :
    s.data.lookup k = some v := by
  rw [cleanLookup] at h
  rcases hd : s.data.lookup k with _ | v'
  · simp [hd] at h
  · rcases he : s.expiry.lookup k with _ | e
    · simp only [hd, he] at h
      exact h
    · simp only [hd, he] at h
      by_cases ht : t < e
      · rw [if_pos ht] at h
        exact h
      · rw [if_neg ht] at h
        exact absurd h (by simp)

theorem swl_read_log_eq (s : InMemoryStorage) (now c : ℚ) (key : String)
    (hwf : WF s) :
    ((s.cleanup_list key c).get_list now key).1 =
      ((s.get_list now key).1).filter (fun x => decide (c < x)) := by
  rcases hd : s.data.lookup key with _ | v
  · rw [InMemoryStorage.cleanup_list]
    simp only [hd]
    have hcl : cleanLookup s now key = none := by
      rw [cleanLookup]
      simp [hd]
    rw [get_list_fst_clean hwf]
    simp [hcl]
  · rcases v with q | l
    · rw [InMemoryStorage.cleanup_list]
      simp only [hd]
      rw [get_list_fst_clean hwf]
      rcases hcl : cleanLookup s now key with _ | w
      · simp
      · have hw : s.data.lookup key = some w := cleanLookup_eq_some hcl
        rw [hd] at hw
        obtain ⟨rfl⟩ := hw
        simp
    · rw [InMemoryStorage.cleanup_list]
      simp only [hd]
      have hwf2 : WF (⟨upsert s.data key (Stored.list (List.filter
          (fun t => decide (c < t)) l)), s.expiry⟩ : InMemoryStorage) :=
        ⟨nodup_upsert_keys hwf.1 _ _, hwf.2⟩
      rw [get_list_fst_clean hwf2, get_list_fst_clean hwf]
      rw [cleanLookup, cleanLookup]
      simp only [hd, lookup_upsert_self]
      rcases he : s.expiry.lookup key with _ | e
      · simp
      · by_cases ht : now < e
        · simp [ht]
        · simp [ht]

theorem tb_allow_fst_congr (config : RateLimitConfig) {s s' : InMemoryStorage}
    (now : ℚ) (identifier : String) (hwf : WF s) (hwf' : WF s')
    (h1 : cleanLookup s now (TokenBucketLimiter.tokens_key identifier) =
      cleanLookup s' now (TokenBucketLimiter.tokens_key identifier))
    (h2 : cleanLookup s now (TokenBucketLimiter.last_key identifier) =
      cleanLookup s' now (TokenBucketLimiter.last_key identifier)) :
    (TokenBucketLimiter.allow config s now identifier).1 =
      (TokenBucketLimiter.allow config s' now identifier).1 := by
  rw [TokenBucketLimiter.allow, TokenBucketLimiter.allow]
  simp only [InMemoryStorage.get]
  rw [data_cleanup_lookup hwf, data_cleanup_lookup hwf',
    data_cleanup_lookup (WF_cleanup hwf now),
    data_cleanup_lookup (WF_cleanup hwf' now),
    cleanLookup_cleanup hwf (le_refl now),
    cleanLookup_cleanup hwf' (le_refl now), h1, h2]

theorem fw_allow_fst_congr (config : RateLimitConfig) {s s' : InMemoryStorage}
    (now : ℚ) (identifier : String) (hwf : WF s) (hwf' : WF s')
    (h1 : cleanLookup s now (FixedWindowLimiter.window_key identifier
        (Rat.floor (now / (config.window_seconds : ℚ)))) =
      cleanLookup s' now (FixedWindowLimiter.window_key identifier
        (Rat.floor (now / (config.window_seconds : ℚ))))) :
    (FixedWindowLimiter.allow config s now identifier).1 =
      (FixedWindowLimiter.allow config s' now identifier).1 := by
  rw [FixedWindowLimiter.allow, FixedWindowLimiter.allow]
  simp only [InMemoryStorage.increment]
  rw [data_cleanup_lookup hwf, data_cleanup_lookup hwf', h1]
  split_ifs <;> rfl

theorem swc_allow_fst_congr (config : RateLimitConfig) {s s' : InMemoryStorage}
    (now : ℚ) (identifier : String) (hwf : WF s) (hwf' : WF s')
    (h1 : cleanLookup s now (SlidingWindowCounterLimiter.window_key identifier
        (Rat.floor (now / (config.window_seconds : ℚ)))) =
      cleanLookup s' now (SlidingWindowCounterLimiter.window_key identifier
        (Rat.floor (now / (config.window_seconds : ℚ)))))
    (h2 : cleanLookup s now (SlidingWindowCounterLimiter.window_key identifier
        (Rat.floor (now / (config.window_seconds : ℚ)) - 1)) =
      cleanLookup s' now (SlidingWindowCounterLimiter.window_key identifier
        (Rat.floor (now / (config.window_seconds : ℚ)) - 1))) :
    (SlidingWindowCounterLimiter.allow config s now identifier).1 =
      (SlidingWindowCounterLimiter.allow config s' now identifier).1 := by
  rw [SlidingWindowCounterLimiter.allow, SlidingWindowCounterLimiter.allow]
  simp only [InMemoryStorage.get]
  rw [data_cleanup_lookup hwf, data_cleanup_lookup hwf',
    data_cleanup_lookup (WF_cleanup hwf now),
    data_cleanup_lookup (WF_cleanup hwf' now),
    cleanLookup_cleanup hwf (le_refl now),
    cleanLookup_cleanup hwf' (le_refl now), h1, h2]
  split_ifs <;> rfl

theorem swl_allow_fst_congr (config : RateLimitConfig) {s s' : InMemoryStorage}
    (now : ℚ) (identifier : String) (hwf : WF s) (hwf' : WF s')
    (hlog : (s.get_list now (SlidingWindowLogLimiter.log_key identifier)).1 =
      (s'.get_list now (SlidingWindowLogLimiter.log_key identifier)).1) :
    (SlidingWindowLogLimiter.allow config s now identifier).1 =
      (SlidingWindowLogLimiter.allow config s' now identifier).1 := by
  rcases hp1 : (s.cleanup_list (SlidingWindowLogLimiter.log_key identifier)
      (now - (config.window_seconds : ℚ))).get_list now
      (SlidingWindowLogLimiter.log_key identifier) with ⟨log1, x1⟩
  rcases hp2 : (s'.cleanup_list (SlidingWindowLogLimiter.log_key identifier)
      (now - (config.window_seconds : ℚ))).get_list now
      (SlidingWindowLogLimiter.log_key identifier) with ⟨log2, x2⟩
  have e1 := congrArg Prod.fst hp1
  have e2 := congrArg Prod.fst hp2
  rw [swl_read_log_eq s now _ _ hwf] at e1
  rw [swl_read_log_eq s' now _ _ hwf'] at e2
  rw [hlog] at e1
  have hlogeq : log1 = log2 := e1.symm.trans e2
  rw [SlidingWindowLogLimiter.allow, SlidingWindowLogLimiter.allow]
  simp only [hp1, hp2]
  rw [hlogeq]
  split_ifs <;> rfl

end InMemoryStorage

/-- Counterexample to C9 as stated: a call for identity "a" DOES change the
stored state for identity "b" — the lazy purge inside allow("a") removes b's
expired fixed-window counter from the dictionary. -/
theorem claim9_counterexample :
    ((⟨[(FixedWindowLimiter.window_key ("b") 0, .num 1)],
       [(FixedWindowLimiter.window_key ("b") 0, 1)]⟩ :
        InMemoryStorage).data.lookup (FixedWindowLimiter.window_key ("b") 0) =
      some (.num 1)) ∧
    (((FixedWindowLimiter.allow ⟨1, 1⟩
        ⟨[(FixedWindowLimiter.window_key ("b") 0, .num 1)],
         [(FixedWindowLimiter.window_key ("b") 0, 1)]⟩ 1 ("a")).2).data.lookup
      (FixedWindowLimiter.window_key ("b") 0) = none) := by
  with_unfolding_all decide

/-- C9 amended: for every algorithm and pair of distinct identities, a call
allow(A) at time tA leaves every key outside A's own key set observationally
unchanged — any read of such a key at a later time tB returns the same value
(allow(A) may physically remove already-expired entries of other identities,
which reads treat as absent either way) — and consequently the admitted flag
and remaining quota reported for B by a subsequent allow(B) are the same
whether or not allow(A) happened in between. -/
theorem claim9_identity_isolation (alg : Algorithm) (config : RateLimitConfig)
    (s : InMemoryStorage) (A B k : String) (tA tB : ℚ) (hwf : WF s)
    (hAB : A ≠ B) (hle : tA ≤ tB)
    (hk : ¬ k ∈ touchedKeys alg config A tA) :
    (let sA := (RateLimiter.allow alg config s tA A).2
     (((sA.get tB k).1 = (s.get tB k).1) ∧
      ((sA.get_list tB k).1 = (s.get_list tB k).1)) ∧
     ((RateLimiter.allow alg config sA tB B).1.allowed =
        (RateLimiter.allow alg config s tB B).1.allowed ∧
      (RateLimiter.allow alg config sA tB B).1.remaining =
        (RateLimiter.allow alg config s tB B).1.remaining)) := by
  dsimp only
  have hwfA := InMemoryStorage.WF_allow alg config s tA A hwf
  have hframe := InMemoryStorage.allow_frame alg config s A k hwf hle hk
  have hframeAt : ∀ k2, k2 ∉ touchedKeys alg config A tA →
      cleanLookup (RateLimiter.allow alg config s tA A).2 tB k2 =
        cleanLookup s tB k2 :=
    fun k2 hk2 => InMemoryStorage.allow_frame alg config s A k2 hwf hle hk2
  refine ⟨⟨?_, ?_⟩, ?_⟩
  · rw [InMemoryStorage.get_fst_clean hwfA, InMemoryStorage.get_fst_clean hwf,
      hframe]
  · rw [InMemoryStorage.get_list_fst_clean hwfA,
      InMemoryStorage.get_list_fst_clean hwf, hframe]
  · have hres : (RateLimiter.allow alg config
        (RateLimiter.allow alg config s tA A).2 tB B).1 =
        (RateLimiter.allow alg config s tB B).1 := by
      cases alg
      · simp only [RateLimiter.allow] at hwfA hframeAt ⊢
        apply InMemoryStorage.tb_allow_fst_congr config tB B hwfA hwf
        · apply hframeAt
          simp only [touchedKeys, List.mem_cons, List.mem_singleton,
            List.not_mem_nil, or_false]
          push_neg
          exact ⟨fun h => hAB (tokens_key_inj h).symm,
            tokens_key_ne_last_key B A⟩
        · apply hframeAt
          simp only [touchedKeys, List.mem_cons, List.mem_singleton,
            List.not_mem_nil, or_false]
          push_neg
          exact ⟨Ne.symm (tokens_key_ne_last_key A B),
            fun h => hAB (last_key_inj h).symm⟩
      · simp only [RateLimiter.allow] at hwfA hframeAt ⊢
        apply InMemoryStorage.swl_allow_fst_congr config tB B hwfA hwf
        rw [InMemoryStorage.get_list_fst_clean hwfA,
          InMemoryStorage.get_list_fst_clean hwf]
        rw [hframeAt]
        simp only [touchedKeys, List.mem_singleton]
        exact fun h => hAB (swl_log_key_inj h).symm
      · simp only [RateLimiter.allow] at hwfA hframeAt ⊢
        apply InMemoryStorage.fw_allow_fst_congr config tB B hwfA hwf
        apply hframeAt
        simp only [touchedKeys, List.mem_singleton]
        exact fun h => hAB (fw_window_key_inj h).1.symm
      · simp only [RateLimiter.allow] at hwfA hframeAt ⊢
        apply InMemoryStorage.swc_allow_fst_congr config tB B hwfA hwf
        · apply hframeAt
          simp only [touchedKeys, List.mem_singleton]
          exact fun h => hAB (swc_window_key_inj h).1.symm
        · apply hframeAt
          simp only [touchedKeys, List.mem_singleton]
          exact fun h => hAB (swc_window_key_inj h).1.symm
    exact ⟨congrArg RateLimitResult.allowed hres,
      congrArg RateLimitResult.remaining hres⟩

/-- Witness for C9 amended: token bucket, identities "a" and "b", a concrete
storage holding live state for "b", an untouched key "z". -/
theorem claim9_witness :
    (((RateLimiter.allow .token_bucket ⟨2, 2⟩
        ⟨[(TokenBucketLimiter.tokens_key ("b"), .num 1)],
         [(TokenBucketLimiter.tokens_key ("b"), 9)]⟩ 0 ("a")).2.get 1
        ("z")).1 =
      ((⟨[(TokenBucketLimiter.tokens_key ("b"), .num 1)],
         [(TokenBucketLimiter.tokens_key ("b"), 9)]⟩ :
          InMemoryStorage).get 1 ("z")).1) ∧
    ((RateLimiter.allow .token_bucket ⟨2, 2⟩
        (RateLimiter.allow .token_bucket ⟨2, 2⟩
          ⟨[(TokenBucketLimiter.tokens_key ("b"), .num 1)],
           [(TokenBucketLimiter.tokens_key ("b"), 9)]⟩ 0 ("a")).2 1
        ("b")).1.allowed =
      (RateLimiter.allow .token_bucket ⟨2, 2⟩
        ⟨[(TokenBucketLimiter.tokens_key ("b"), .num 1)],
         [(TokenBucketLimiter.tokens_key ("b"), 9)]⟩ 1 ("b")).1.allowed) := by
  have h := claim9_identity_isolation .token_bucket ⟨2, 2⟩
    ⟨[(TokenBucketLimiter.tokens_key ("b"), .num 1)],
     [(TokenBucketLimiter.tokens_key ("b"), 9)]⟩ ("a") ("b") ("z") 0 1
    (by constructor <;> simp) (by with_unfolding_all decide) (by norm_num)
    (by with_unfolding_all decide)
  exact ⟨h.1.1, h.2.1⟩

/-! ## Run lemmas for the admission-cap property (C1) -/

theorem rat_floor_eq (q : ℚ) : Rat.floor q = ⌊q⌋ := by
  rw [Rat.floor_def', Rat.floor_def]

theorem window_floor {w W : ℤ} {u : ℚ} (hw : 0 < w)
    (h1 : (W : ℚ) * (w : ℚ) ≤ u) (h2 : u < ((W + 1 : ℤ) : ℚ) * (w : ℚ)) :
    Rat.floor (u / (w : ℚ)) = W := by
  rw [rat_floor_eq]
  have hwq : (0 : ℚ) < (w : ℚ) := by exact_mod_cast hw
  rw [Int.floor_eq_iff]
  constructor
  · rw [le_div_iff₀ hwq]
    exact h1
  · rw [div_lt_iff₀ hwq]
    push_cast at h2 ⊢
    linarith

theorem cleanup_expired_singleton_live (k : String) (v : Stored) (e t : ℚ)
    (h : t < e) :
    (⟨[(k, v)], [(k, e)]⟩ : InMemoryStorage).cleanup_expired t =
      ⟨[(k, v)], [(k, e)]⟩ := by
  rw [InMemoryStorage.cleanup_expired]
  congr 1
  · rw [List.filter_cons]
    have hl : List.lookup k [(k, e)] = some e := by simp [List.lookup]
    simp [hl, h]
  · rw [List.filter_cons]
    simp [h]

theorem cleanup_expired_pair_live (k1 k2 : String) (v1 v2 : Stored)
    (e1 e2 t : ℚ) (hk : k1 ≠ k2) (h1 : t < e1) (h2 : t < e2) :
    (⟨[(k1, v1), (k2, v2)], [(k1, e1), (k2, e2)]⟩ :
      InMemoryStorage).cleanup_expired t =
      ⟨[(k1, v1), (k2, v2)], [(k1, e1), (k2, e2)]⟩ := by
  have hb : (k2 == k1) = false := beq_eq_false_iff_ne.mpr (Ne.symm hk)
  rw [InMemoryStorage.cleanup_expired]
  congr 1
  · have hl1 : List.lookup k1 [(k1, e1), (k2, e2)] = some e1 := by
      simp [List.lookup]
    have hl2 : List.lookup k2 [(k1, e1), (k2, e2)] = some e2 := by
      simp [List.lookup, hb]
    rw [List.filter_cons, List.filter_cons]
    simp [hl1, hl2, h1, h2]
  · rw [List.filter_cons, List.filter_cons]
    simp [h1, h2]

theorem flags_map_formula (n : ℕ) (hn : 1 ≤ n) :
    true :: (List.range n).map (fun i => decide (1 + i + 1 ≤ n)) =
      List.replicate n true ++ [false] := by
  obtain ⟨m, rfl⟩ : ∃ m, n = m + 1 := ⟨n - 1, by omega⟩
  rw [List.range_succ, List.map_append]
  have h1 : (List.range m).map (fun i => decide (1 + i + 1 ≤ m + 1)) =
      List.replicate m true := by
    apply List.eq_replicate_iff.mpr
    constructor
    · simp
    · intro b hb
      simp only [List.mem_map, List.mem_range] at hb
      obtain ⟨i, hi, rfl⟩ := hb
      simp only [decide_eq_true_eq]
      omega
  rw [h1]
  have h2 : ¬ (1 + m + 1 ≤ m + 1) := by omega
  simp [h2, List.replicate_succ]

theorem fw_step (n w W : ℤ) (A : String) (c tprev u : ℚ) (hw : 0 < w)
    (hu1 : (W : ℚ) * (w : ℚ) ≤ u) (hu2 : u < ((W + 1 : ℤ) : ℚ) * (w : ℚ))
    (htp : (W : ℚ) * (w : ℚ) ≤ tprev) :
    ((FixedWindowLimiter.allow ⟨n, w⟩
      (counterState (FixedWindowLimiter.window_key A W) c (tprev + (w : ℚ)))
      u A).1.allowed = decide (c + 1 ≤ (n : ℚ))) ∧
    ((FixedWindowLimiter.allow ⟨n, w⟩
      (counterState (FixedWindowLimiter.window_key A W) c (tprev + (w : ℚ)))
      u A).2 =
      counterState (FixedWindowLimiter.window_key A W) (c + 1) (u + (w : ℚ))) := by
  have hkey : Rat.floor (u / (w : ℚ)) = W := window_floor hw hu1 hu2
  have hlive : u < tprev + (w : ℚ) := by
    push_cast at hu2
    linarith
  have hclean : (counterState (FixedWindowLimiter.window_key A W) c
      (tprev + (w : ℚ))).cleanup_expired u =
      counterState (FixedWindowLimiter.window_key A W) c (tprev + (w : ℚ)) := by
    rw [counterState]
    exact cleanup_expired_singleton_live _ _ _ _ hlive
  have hinc : (counterState (FixedWindowLimiter.window_key A W) c
      (tprev + (w : ℚ))).increment u (FixedWindowLimiter.window_key A W) w =
      (c + 1, counterState (FixedWindowLimiter.window_key A W) (c + 1)
        (u + (w : ℚ))) := by
    rw [InMemoryStorage.increment, hclean]
    rw [counterState, counterState]
    have hl : List.lookup (FixedWindowLimiter.window_key A W)
        [(FixedWindowLimiter.window_key A W, Stored.num c)] =
        some (.num c) := by simp [List.lookup]
    simp only [hl]
    simp [upsert, List.filter]
  rw [FixedWindowLimiter.allow]
  simp only [hkey, hinc]
  by_cases hc : c + 1 ≤ ((n : ℤ) : ℚ)
  · simp [hc]
  · simp [hc]

theorem fw_first (n w W : ℤ) (A : String) (u : ℚ) (hw : 0 < w)
    (hu1 : (W : ℚ) * (w : ℚ) ≤ u) (hu2 : u < ((W + 1 : ℤ) : ℚ) * (w : ℚ)) :
    ((FixedWindowLimiter.allow ⟨n, w⟩ emptyStorage u A).1.allowed =
      decide ((1 : ℚ) ≤ (n : ℚ))) ∧
    ((FixedWindowLimiter.allow ⟨n, w⟩ emptyStorage u A).2 =
      counterState (FixedWindowLimiter.window_key A W) 1 (u + (w : ℚ))) := by
  have hkey : Rat.floor (u / (w : ℚ)) = W := window_floor hw hu1 hu2
  have hinc : emptyStorage.increment u (FixedWindowLimiter.window_key A W) w =
      (1, counterState (FixedWindowLimiter.window_key A W) 1 (u + (w : ℚ))) := by
    rw [InMemoryStorage.increment]
    have hclean : emptyStorage.cleanup_expired u = emptyStorage := rfl
    rw [hclean]
    rw [counterState, emptyStorage]
    simp [upsert, List.lookup]
  rw [FixedWindowLimiter.allow]
  simp only [hkey, hinc]
  by_cases hc : (1 : ℚ) ≤ ((n : ℤ) : ℚ)
  · simp [hc]
  · simp [hc]

theorem fw_run (n w W : ℤ) (A : String) (hw : 0 < w) :
    ∀ (us : List ℚ) (j : ℕ) (tprev : ℚ),
    (∀ u ∈ us, (W : ℚ) * (w : ℚ) ≤ u ∧ u < ((W + 1 : ℤ) : ℚ) * (w : ℚ)) →
    (W : ℚ) * (w : ℚ) ≤ tprev →
    (runCalls (fun s u => FixedWindowLimiter.allow ⟨n, w⟩ s u A)
      (counterState (FixedWindowLimiter.window_key A W) (j : ℚ)
        (tprev + (w : ℚ))) us).1 =
      (List.range us.length).map
        (fun i : ℕ => decide ((j : ℤ) + (i : ℤ) + 1 ≤ n)) := by
  intro us
  induction us with
  | nil => intro j tprev _ _; rfl
  | cons u us ih =>
      intro j tprev hus htp
      obtain ⟨hu1, hu2⟩ := hus u (by simp)
      obtain ⟨hfl, hst⟩ := fw_step n w W A (j : ℚ) tprev u hw hu1 hu2 htp
      rw [runCalls]
      rcases hcall : FixedWindowLimiter.allow ⟨n, w⟩
          (counterState (FixedWindowLimiter.window_key A W) (j : ℚ)
            (tprev + (w : ℚ))) u A with ⟨r, s1⟩
      rw [hcall] at hfl hst
      simp only at hfl hst
      have hcast : ((j : ℚ) + 1) = ((j + 1 : ℕ) : ℚ) := by push_cast; ring
      subst hst
      rw [hcast] at *
      have htail := ih (j + 1) u (fun x hx => hus x (by simp [hx])) hu1
      simp only []
      rw [htail, hfl]
      rw [List.length_cons, List.range_succ_eq_map, List.map_cons,
        List.map_map]
      congr 1
      · rw [decide_eq_decide]
        push_cast
        constructor
        · intro h; exact_mod_cast h
        · intro h; exact_mod_cast h
      · apply List.map_congr_left
        intro i hi
        simp only [Function.comp]
        rw [decide_eq_decide]
        push_cast
        omega

theorem swc_step (n w W : ℤ) (A : String) (c tprev u : ℚ) (hw : 0 < w)
    (hu1 : (W : ℚ) * (w : ℚ) ≤ u) (hu2 : u < ((W + 1 : ℤ) : ℚ) * (w : ℚ))
    (htp : (W : ℚ) * (w : ℚ) ≤ tprev) :
    ((SlidingWindowCounterLimiter.allow ⟨n, w⟩
      (counterState (SlidingWindowCounterLimiter.window_key A W) c
        (tprev + ((w * 2 : ℤ) : ℚ))) u A).1.allowed =
      decide (c < (n : ℚ))) ∧
    ((SlidingWindowCounterLimiter.allow ⟨n, w⟩
      (counterState (SlidingWindowCounterLimiter.window_key A W) c
        (tprev + ((w * 2 : ℤ) : ℚ))) u A).2 =
      if c < ((n : ℤ) : ℚ) then
        counterState (SlidingWindowCounterLimiter.window_key A W) (c + 1)
          (u + ((w * 2 : ℤ) : ℚ))
      else
        counterState (SlidingWindowCounterLimiter.window_key A W) c
          (tprev + ((w * 2 : ℤ) : ℚ))) := by
  have hkey : Rat.floor (u / (w : ℚ)) = W := window_floor hw hu1 hu2
  have hlive : u < tprev + ((w * 2 : ℤ) : ℚ) := by
    push_cast at hu2 ⊢
    have hwq : (0 : ℚ) < (w : ℚ) := by exact_mod_cast hw
    linarith
  have hclean : (counterState (SlidingWindowCounterLimiter.window_key A W) c
      (tprev + ((w * 2 : ℤ) : ℚ))).cleanup_expired u =
      counterState (SlidingWindowCounterLimiter.window_key A W) c
        (tprev + ((w * 2 : ℤ) : ℚ)) := by
    rw [counterState]
    exact cleanup_expired_singleton_live _ _ _ _ hlive
  have hne : SlidingWindowCounterLimiter.window_key A (W - 1) ≠
      SlidingWindowCounterLimiter.window_key A W := by
    intro h
    have := (swc_window_key_inj h).2
    omega
  have hl1 : List.lookup (SlidingWindowCounterLimiter.window_key A W)
      (counterState (SlidingWindowCounterLimiter.window_key A W) c
        (tprev + ((w * 2 : ℤ) : ℚ))).data = some (.num c) := by
    simp [counterState, List.lookup]
  have hl2 : List.lookup (SlidingWindowCounterLimiter.window_key A (W - 1))
      (counterState (SlidingWindowCounterLimiter.window_key A W) c
        (tprev + ((w * 2 : ℤ) : ℚ))).data = none := by
    rw [counterState]
    simp only []
    rw [List.lookup, beq_eq_false_iff_ne.mpr hne]
    rfl
  have hinc : (counterState (SlidingWindowCounterLimiter.window_key A W) c
      (tprev + ((w * 2 : ℤ) : ℚ))).increment u
      (SlidingWindowCounterLimiter.window_key A W) (w * 2) =
      (c + 1, counterState (SlidingWindowCounterLimiter.window_key A W) (c + 1)
        (u + ((w * 2 : ℤ) : ℚ))) := by
    rw [InMemoryStorage.increment, hclean]
    simp only [hl1]
    rw [counterState, counterState]
    simp [upsert, List.filter]
  rw [SlidingWindowCounterLimiter.allow]
  simp only [hkey, InMemoryStorage.get, hclean, hl1, hl2]
  rw [hinc]
  by_cases hc : c < ((n : ℤ) : ℚ)
  · have hcond : (0 : ℚ) * (1 - (u - (W : ℚ) * (w : ℚ)) / (w : ℚ)) + c <
        ((n : ℤ) : ℚ) := by
      rw [zero_mul, zero_add]
      exact hc
    simp [hc, hcond]
  · have hcond : ¬ ((0 : ℚ) * (1 - (u - (W : ℚ) * (w : ℚ)) / (w : ℚ)) + c <
        ((n : ℤ) : ℚ)) := by
      rw [zero_mul, zero_add]
      exact hc
    simp [hc, hcond]

theorem swc_first (n w W : ℤ) (A : String) (u : ℚ) (hw : 0 < w)
    (hu1 : (W : ℚ) * (w : ℚ) ≤ u) (hu2 : u < ((W + 1 : ℤ) : ℚ) * (w : ℚ)) :
    ((SlidingWindowCounterLimiter.allow ⟨n, w⟩ emptyStorage u A).1.allowed =
      decide ((0 : ℚ) < (n : ℚ))) ∧
    ((SlidingWindowCounterLimiter.allow ⟨n, w⟩ emptyStorage u A).2 =
      if (0 : ℚ) < ((n : ℤ) : ℚ) then
        counterState (SlidingWindowCounterLimiter.window_key A W) 1
          (u + ((w * 2 : ℤ) : ℚ))
      else emptyStorage) := by
  have hkey : Rat.floor (u / (w : ℚ)) = W := window_floor hw hu1 hu2
  have hclean : emptyStorage.cleanup_expired u = emptyStorage := rfl
  have hinc : emptyStorage.increment u
      (SlidingWindowCounterLimiter.window_key A W) (w * 2) =
      (1, counterState (SlidingWindowCounterLimiter.window_key A W) 1
        (u + ((w * 2 : ℤ) : ℚ))) := by
    rw [InMemoryStorage.increment, hclean]
    rw [counterState, emptyStorage]
    simp [upsert, List.lookup]
  rw [SlidingWindowCounterLimiter.allow]
  simp only [hkey, InMemoryStorage.get, hclean]
  rw [show List.lookup (SlidingWindowCounterLimiter.window_key A W)
      emptyStorage.data = none from rfl,
    show List.lookup (SlidingWindowCounterLimiter.window_key A (W - 1))
      emptyStorage.data = none from rfl]
  rw [hinc]
  by_cases hc : (0 : ℚ) < ((n : ℤ) : ℚ)
  · have hcond : (0 : ℚ) * (1 - (u - (W : ℚ) * (w : ℚ)) / (w : ℚ)) + 0 <
        ((n : ℤ) : ℚ) := by
      rw [zero_mul, zero_add]
      exact hc
    simp [hc, hcond]
  · have hcond : ¬ ((0 : ℚ) * (1 - (u - (W : ℚ) * (w : ℚ)) / (w : ℚ)) + 0 <
        ((n : ℤ) : ℚ)) := by
      rw [zero_mul, zero_add]
      exact hc
    simp [hc, hcond]

theorem swc_run (n w W : ℤ) (A : String) (hw : 0 < w) :
    ∀ (us : List ℚ) (j : ℕ) (tprev : ℚ),
    (∀ u ∈ us, (W : ℚ) * (w : ℚ) ≤ u ∧ u < ((W + 1 : ℤ) : ℚ) * (w : ℚ)) →
    (W : ℚ) * (w : ℚ) ≤ tprev →
    (runCalls (fun s u => SlidingWindowCounterLimiter.allow ⟨n, w⟩ s u A)
      (counterState (SlidingWindowCounterLimiter.window_key A W) (j : ℚ)
        (tprev + ((w * 2 : ℤ) : ℚ))) us).1 =
      (List.range us.length).map
        (fun i : ℕ => decide ((j : ℤ) + (i : ℤ) + 1 ≤ n)) := by
  intro us
  induction us with
  | nil => intro j tprev _ _; rfl
  | cons u us ih =>
      intro j tprev hus htp
      obtain ⟨hu1, hu2⟩ := hus u (by simp)
      obtain ⟨hfl, hst⟩ := swc_step n w W A (j : ℚ) tprev u hw hu1 hu2 htp
      rw [runCalls]
      rcases hcall : SlidingWindowCounterLimiter.allow ⟨n, w⟩
          (counterState (SlidingWindowCounterLimiter.window_key A W) (j : ℚ)
            (tprev + ((w * 2 : ℤ) : ℚ))) u A with ⟨r, s1⟩
      rw [hcall] at hfl hst
      simp only at hfl hst
      simp only []
      rw [List.length_cons, List.range_succ_eq_map, List.map_cons,
        List.map_map]
      by_cases hc : (j : ℚ) < ((n : ℤ) : ℚ)
      · rw [if_pos hc] at hst
        have hcast : ((j : ℚ) + 1) = ((j + 1 : ℕ) : ℚ) := by push_cast; ring
        rw [hcast] at hst
        subst hst
        have htail := ih (j + 1) u (fun x hx => hus x (by simp [hx])) hu1
        rw [htail, hfl]
        congr 1
        · rw [decide_eq_decide]
          push_cast
          constructor
          · intro h
            have : (j : ℚ) < (n : ℚ) := by exact_mod_cast h
            have : (j : ℤ) < n := by exact_mod_cast this
            omega
          · intro h
            have : (j : ℤ) + 1 ≤ n := by omega
            exact_mod_cast (by exact_mod_cast this : ((j : ℚ) + 1 ≤ (n : ℚ)))
        · apply List.map_congr_left
          intro i hi
          simp only [Function.comp]
          rw [decide_eq_decide]
          push_cast
          omega
      · rw [if_neg hc] at hst
        subst hst
        have htail := ih j tprev (fun x hx => hus x (by simp [hx])) htp
        rw [htail, hfl]
        have hn_le : (n : ℤ) ≤ j := by
          by_contra hcon
          push_neg at hcon
          apply hc
          have : (j : ℤ) < n := hcon
          exact_mod_cast (by exact_mod_cast this : ((j : ℚ) < (n : ℚ)))
        congr 1
        · rw [decide_eq_decide]
          constructor
          · intro h
            exfalso
            apply hc
            have h2 : (j : ℚ) < (n : ℚ) := by linarith
            exact_mod_cast h2
          · intro h
            omega
        · apply List.map_congr_left
          intro i hi
          simp only [Function.comp]
          rw [decide_eq_decide]
          omega

theorem swl_step (n w : ℤ) (A : String) (log : List ℚ) (t1 tprev u : ℚ)
    (hw : 0 < w) (hlog : ∀ x ∈ log, t1 ≤ x) (htp : t1 ≤ tprev)
    (_hu1 : t1 ≤ u) (hu2 : u < t1 + (w : ℚ)) :
    ((SlidingWindowLogLimiter.allow ⟨n, w⟩
      (swlRunState ⟨n, w⟩ A log tprev) u A).1.allowed =
      decide ((log.length : ℤ) < n)) ∧
    ((SlidingWindowLogLimiter.allow ⟨n, w⟩
      (swlRunState ⟨n, w⟩ A log tprev) u A).2 =
      if (log.length : ℤ) < n then swlRunState ⟨n, w⟩ A (log ++ [u]) u
      else swlRunState ⟨n, w⟩ A log tprev) := by
  have hwq : (0 : ℚ) < (w : ℚ) := by exact_mod_cast hw
  have hfilter : log.filter (fun x => decide (u - (w : ℚ) < x)) = log := by
    apply List.filter_eq_self.mpr
    intro x hx
    have := hlog x hx
    simp only [decide_eq_true_eq]
    linarith
  have hlive : u < tprev + (w : ℚ) := by linarith
  have hlk : List.lookup (SlidingWindowLogLimiter.log_key A)
      (swlRunState ⟨n, w⟩ A log tprev).data = some (.list log) := by
    simp [swlRunState, List.lookup]
  have hcl : (swlRunState ⟨n, w⟩ A log tprev).cleanup_list
      (SlidingWindowLogLimiter.log_key A) (u - (w : ℚ)) =
      swlRunState ⟨n, w⟩ A log tprev := by
    rw [InMemoryStorage.cleanup_list]
    simp only [hlk]
    rw [hfilter, swlRunState]
    simp [upsert, List.filter]
  have hclean : (swlRunState ⟨n, w⟩ A log tprev).cleanup_expired u =
      swlRunState ⟨n, w⟩ A log tprev := by
    rw [swlRunState]
    exact cleanup_expired_singleton_live _ _ _ _ hlive
  have hget : (swlRunState ⟨n, w⟩ A log tprev).get_list u
      (SlidingWindowLogLimiter.log_key A) =
      (log, swlRunState ⟨n, w⟩ A log tprev) := by
    rw [InMemoryStorage.get_list, hclean]
    simp only [hlk]
  have hadd : (swlRunState ⟨n, w⟩ A log tprev).add_to_list u
      (SlidingWindowLogLimiter.log_key A) u w =
      swlRunState ⟨n, w⟩ A (log ++ [u]) u := by
    rw [InMemoryStorage.add_to_list]
    simp only [hlk]
    rw [swlRunState, swlRunState]
    simp [upsert, List.filter]
  rw [SlidingWindowLogLimiter.allow]
  simp only [hcl, hget, hadd]
  by_cases hc : (log.length : ℤ) < n
  · simp [hc]
  · simp [hc]

theorem swl_first (n w : ℤ) (A : String) (t1 : ℚ) :
    ((SlidingWindowLogLimiter.allow ⟨n, w⟩ emptyStorage t1 A).1.allowed =
      decide ((0 : ℤ) < n)) ∧
    ((SlidingWindowLogLimiter.allow ⟨n, w⟩ emptyStorage t1 A).2 =
      if (0 : ℤ) < n then swlRunState ⟨n, w⟩ A [t1] t1 else emptyStorage) := by
  have hcl : emptyStorage.cleanup_list (SlidingWindowLogLimiter.log_key A)
      (t1 - (w : ℚ)) = emptyStorage := rfl
  have hget : emptyStorage.get_list t1 (SlidingWindowLogLimiter.log_key A) =
      ([], emptyStorage) := rfl
  have hadd : emptyStorage.add_to_list t1 (SlidingWindowLogLimiter.log_key A)
      t1 w = swlRunState ⟨n, w⟩ A [t1] t1 := by
    rw [InMemoryStorage.add_to_list]
    rw [swlRunState, emptyStorage]
    simp [upsert, List.lookup]
  rw [SlidingWindowLogLimiter.allow]
  simp only [hcl, hget, hadd]
  by_cases hc : (0 : ℤ) < n
  · simp [hc]
  · simp [hc]

theorem swl_run (n w : ℤ) (A : String) (t1 : ℚ) (hw : 0 < w) :
    ∀ (us : List ℚ) (log : List ℚ) (tprev : ℚ),
    (∀ u ∈ us, t1 ≤ u ∧ u < t1 + (w : ℚ)) →
    (∀ x ∈ log, t1 ≤ x) → t1 ≤ tprev →
    (runCalls (fun s u => SlidingWindowLogLimiter.allow ⟨n, w⟩ s u A)
      (swlRunState ⟨n, w⟩ A log tprev) us).1 =
      (List.range us.length).map
        (fun i : ℕ => decide ((log.length : ℤ) + (i : ℤ) + 1 ≤ n)) := by
  intro us
  induction us with
  | nil => intro log tprev _ _ _; rfl
  | cons u us ih =>
      intro log tprev hus hlog htp
      obtain ⟨hu1, hu2⟩ := hus u (by simp)
      obtain ⟨hfl, hst⟩ := swl_step n w A log t1 tprev u hw hlog htp hu1 hu2
      rw [runCalls]
      rcases hcall : SlidingWindowLogLimiter.allow ⟨n, w⟩
          (swlRunState ⟨n, w⟩ A log tprev) u A with ⟨r, s1⟩
      rw [hcall] at hfl hst
      simp only at hfl hst
      simp only []
      rw [List.length_cons, List.range_succ_eq_map, List.map_cons,
        List.map_map]
      by_cases hc : (log.length : ℤ) < n
      · rw [if_pos hc] at hst
        subst hst
        have htail := ih (log ++ [u]) u (fun x hx => hus x (by simp [hx]))
          (by
            intro x hx
            rcases List.mem_append.mp hx with h1 | h1
            · exact hlog x h1
            · simp only [List.mem_singleton] at h1
              subst h1
              exact hu1) hu1
        rw [htail, hfl, List.cons_eq_cons]
        refine ⟨?_, ?_⟩
        · rw [decide_eq_decide]
          push_cast
          omega
        · apply List.map_congr_left
          intro i hi
          simp only [Function.comp, List.length_append, List.length_singleton]
          rw [decide_eq_decide]
          push_cast
          omega
      · rw [if_neg hc] at hst
        subst hst
        have htail := ih log tprev (fun x hx => hus x (by simp [hx])) hlog htp
        rw [htail, hfl, List.cons_eq_cons]
        refine ⟨?_, ?_⟩
        · rw [decide_eq_decide]
          push_cast
          omega
        · apply List.map_congr_left
          intro i hi
          simp only [Function.comp]
          rw [decide_eq_decide]
          push_cast
          omega

theorem tb_step (n w : ℤ) (A : String) (j : ℕ) (t1 tprev u : ℚ)
    (hn : 0 < n) (hw : 0 < w) (hj : 1 ≤ j) (hjn : (j : ℤ) ≤ n)
    (htp1 : t1 ≤ tprev) (hu1 : t1 ≤ u)
    (hu2 : u < t1 + (w : ℚ) / (n : ℚ)) :
    ((TokenBucketLimiter.allow ⟨n, w⟩
      (tbRunState ⟨n, w⟩ A ((n : ℚ) - (j : ℚ) + (tprev - t1) *
        ((n : ℚ) / (w : ℚ))) tprev) u A).1.allowed =
      decide ((j : ℤ) + 1 ≤ n)) ∧
    ((TokenBucketLimiter.allow ⟨n, w⟩
      (tbRunState ⟨n, w⟩ A ((n : ℚ) - (j : ℚ) + (tprev - t1) *
        ((n : ℚ) / (w : ℚ))) tprev) u A).2 =
      if (j : ℤ) + 1 ≤ n then
        tbRunState ⟨n, w⟩ A ((n : ℚ) - ((j : ℚ) + 1) + (u - t1) *
          ((n : ℚ) / (w : ℚ))) u
      else
        tbRunState ⟨n, w⟩ A ((n : ℚ) - (j : ℚ) + (u - t1) *
          ((n : ℚ) / (w : ℚ))) u) := by
  have hwq : (0 : ℚ) < (w : ℚ) := by exact_mod_cast hw
  have hnq : (0 : ℚ) < (n : ℚ) := by exact_mod_cast hn
  have hnq1 : (1 : ℚ) ≤ (n : ℚ) := by exact_mod_cast hn
  have hjq : (1 : ℚ) ≤ (j : ℚ) := by exact_mod_cast hj
  have hrpos : (0 : ℚ) < (n : ℚ) / (w : ℚ) := div_pos hnq hwq
  have hdelta0 : (0 : ℚ) ≤ (u - t1) * ((n : ℚ) / (w : ℚ)) :=
    mul_nonneg (by linarith) (le_of_lt hrpos)
  have hdelta1 : (u - t1) * ((n : ℚ) / (w : ℚ)) < 1 := by
    have h1 : u - t1 < (w : ℚ) / (n : ℚ) := by linarith
    have h2 : (u - t1) * ((n : ℚ) / (w : ℚ)) <
        ((w : ℚ) / (n : ℚ)) * ((n : ℚ) / (w : ℚ)) :=
      mul_lt_mul_of_pos_right h1 hrpos
    have h3 : ((w : ℚ) / (n : ℚ)) * ((n : ℚ) / (w : ℚ)) = 1 := by
      field_simp
    linarith
  have hlive : u < tprev + ((w * 2 : ℤ) : ℚ) := by
    have hdn : (w : ℚ) / (n : ℚ) ≤ (w : ℚ) :=
      div_le_self (le_of_lt hwq) hnq1
    push_cast
    linarith
  have hne : TokenBucketLimiter.last_key A ≠ TokenBucketLimiter.tokens_key A :=
    Ne.symm (tokens_key_ne_last_key A A)
  have hbne : (TokenBucketLimiter.tokens_key A ==
      TokenBucketLimiter.last_key A) = false :=
    beq_eq_false_iff_ne.mpr (tokens_key_ne_last_key A A)
  have hbne2 : (TokenBucketLimiter.last_key A ==
      TokenBucketLimiter.tokens_key A) = false :=
    beq_eq_false_iff_ne.mpr hne
  have hclean : (tbRunState ⟨n, w⟩ A ((n : ℚ) - (j : ℚ) + (tprev - t1) *
      ((n : ℚ) / (w : ℚ))) tprev).cleanup_expired u =
      tbRunState ⟨n, w⟩ A ((n : ℚ) - (j : ℚ) + (tprev - t1) *
        ((n : ℚ) / (w : ℚ))) tprev := by
    rw [tbRunState]
    exact cleanup_expired_pair_live _ _ _ _ _ _ _ hne hlive hlive
  have hlk1 : List.lookup (TokenBucketLimiter.tokens_key A)
      (tbRunState ⟨n, w⟩ A ((n : ℚ) - (j : ℚ) + (tprev - t1) *
        ((n : ℚ) / (w : ℚ))) tprev).data =
      some (.num ((n : ℚ) - (j : ℚ) + (tprev - t1) *
        ((n : ℚ) / (w : ℚ)))) := by
    rw [tbRunState]
    simp only []
    rw [List.lookup, hbne, List.lookup]
    simp
  have hlk2 : List.lookup (TokenBucketLimiter.last_key A)
      (tbRunState ⟨n, w⟩ A ((n : ℚ) - (j : ℚ) + (tprev - t1) *
        ((n : ℚ) / (w : ℚ))) tprev).data = some (.num tprev) := by
    rw [tbRunState]
    simp only []
    rw [List.lookup]
    simp
  have hrr : TokenBucketLimiter.refill_rate ⟨n, w⟩ = (n : ℚ) / (w : ℚ) := rfl
  have hrefill : (n : ℚ) - (j : ℚ) + (tprev - t1) * ((n : ℚ) / (w : ℚ)) +
      (u - tprev) * ((n : ℚ) / (w : ℚ)) =
      (n : ℚ) - (j : ℚ) + (u - t1) * ((n : ℚ) / (w : ℚ)) := by ring
  have hmin : min ((n : ℤ) : ℚ) ((n : ℚ) - (j : ℚ) + (u - t1) *
      ((n : ℚ) / (w : ℚ))) =
      (n : ℚ) - (j : ℚ) + (u - t1) * ((n : ℚ) / (w : ℚ)) := by
    apply min_eq_right
    linarith
  have hiff : ((1 : ℚ) ≤ (n : ℚ) - (j : ℚ) + (u - t1) *
      ((n : ℚ) / (w : ℚ))) ↔ ((j : ℤ) + 1 ≤ n) := by
    constructor
    · intro h
      by_contra hcon
      push_neg at hcon
      have : (n : ℚ) ≤ (j : ℚ) := by exact_mod_cast (by omega : n ≤ (j : ℤ))
      linarith
    · intro h
      have : (j : ℚ) + 1 ≤ (n : ℚ) := by exact_mod_cast h
      linarith
  rw [TokenBucketLimiter.allow]
  simp only [InMemoryStorage.get, hclean, hlk1, hlk2, hrr]
  rw [show ((⟨n, w⟩ : RateLimitConfig).max_requests : ℚ) = ((n : ℤ) : ℚ)
    from rfl]
  rw [hrefill, hmin]
  by_cases hc : (j : ℤ) + 1 ≤ n
  · have hcond : (1 : ℚ) ≤ (n : ℚ) - (j : ℚ) + (u - t1) *
        ((n : ℚ) / (w : ℚ)) := hiff.mpr hc
    simp only [if_pos hcond, if_pos hc]
    constructor
    · simp [hc]
    · rw [InMemoryStorage.set, InMemoryStorage.set, tbRunState, tbRunState]
      simp only [upsert]
      simp [List.filter, bne, hbne, hbne2]
      ring_nf
  · have hcond : ¬ ((1 : ℚ) ≤ (n : ℚ) - (j : ℚ) + (u - t1) *
        ((n : ℚ) / (w : ℚ))) := fun h => hc (hiff.mp h)
    simp only [if_neg hcond, if_neg hc]
    constructor
    · simp [hc]
    · rw [InMemoryStorage.set, InMemoryStorage.set, tbRunState, tbRunState]
      simp only [upsert]
      simp [List.filter, bne, hbne, hbne2]

theorem tb_first (n w : ℤ) (A : String) (t1 : ℚ) (hn : 1 ≤ n) :
    ((TokenBucketLimiter.allow ⟨n, w⟩ emptyStorage t1 A).1.allowed = true) ∧
    ((TokenBucketLimiter.allow ⟨n, w⟩ emptyStorage t1 A).2 =
      tbRunState ⟨n, w⟩ A ((n : ℚ) - ((1 : ℕ) : ℚ) + (t1 - t1) *
        ((n : ℚ) / (w : ℚ))) t1) := by
  have hnq1 : (1 : ℚ) ≤ ((n : ℤ) : ℚ) := by exact_mod_cast hn
  have hbne : (TokenBucketLimiter.tokens_key A ==
      TokenBucketLimiter.last_key A) = false :=
    beq_eq_false_iff_ne.mpr (tokens_key_ne_last_key A A)
  have hget1 : emptyStorage.get t1 (TokenBucketLimiter.tokens_key A) =
      (none, emptyStorage) := rfl
  have hget2 : emptyStorage.get t1 (TokenBucketLimiter.last_key A) =
      (none, emptyStorage) := rfl
  have h0 : t1 - t1 = 0 := by ring
  rw [TokenBucketLimiter.allow]
  simp only [hget1, hget2, h0, zero_mul, add_zero, min_self]
  rw [if_pos hnq1]
  constructor
  · rfl
  · rw [InMemoryStorage.set, InMemoryStorage.set, tbRunState]
    simp [upsert, emptyStorage, List.filter, bne, hbne]

theorem tb_run (n w : ℤ) (A : String) (t1 : ℚ) (hn : 0 < n) (hw : 0 < w) :
    ∀ (us : List ℚ) (j : ℕ) (tprev : ℚ),
    1 ≤ j → (j : ℤ) ≤ n → t1 ≤ tprev →
    (∀ u ∈ us, t1 ≤ u ∧ u < t1 + (w : ℚ) / (n : ℚ)) →
    (runCalls (fun s u => TokenBucketLimiter.allow ⟨n, w⟩ s u A)
      (tbRunState ⟨n, w⟩ A ((n : ℚ) - (j : ℚ) + (tprev - t1) *
        ((n : ℚ) / (w : ℚ))) tprev) us).1 =
      (List.range us.length).map
        (fun i : ℕ => decide ((j : ℤ) + (i : ℤ) + 1 ≤ n)) := by
  intro us
  induction us with
  | nil => intro j tprev _ _ _ _; rfl
  | cons u us ih =>
      intro j tprev hj hjn htp hus
      obtain ⟨hu1, hu2⟩ := hus u (by simp)
      obtain ⟨hfl, hst⟩ := tb_step n w A j t1 tprev u hn hw hj hjn htp hu1 hu2
      rw [runCalls]
      rcases hcall : TokenBucketLimiter.allow ⟨n, w⟩
          (tbRunState ⟨n, w⟩ A ((n : ℚ) - (j : ℚ) + (tprev - t1) *
            ((n : ℚ) / (w : ℚ))) tprev) u A with ⟨r, s1⟩
      rw [hcall] at hfl hst
      simp only at hfl hst
      simp only []
      rw [List.length_cons, List.range_succ_eq_map, List.map_cons,
        List.map_map]
      by_cases hc : (j : ℤ) + 1 ≤ n
      · rw [if_pos hc] at hst
        subst hst
        have hval : (n : ℚ) - ((j : ℚ) + 1) + (u - t1) * ((n : ℚ) / (w : ℚ)) =
            (n : ℚ) - ((j + 1 : ℕ) : ℚ) + (u - t1) * ((n : ℚ) / (w : ℚ)) := by
          push_cast
          ring
        rw [hval]
        have htail := ih (j + 1) u (by omega) (by push_cast; omega) hu1
          (fun x hx => hus x (by simp [hx]))
        rw [htail, hfl, List.cons_eq_cons]
        refine ⟨?_, ?_⟩
        · rfl
        · apply List.map_congr_left
          intro i hi
          simp only [Function.comp]
          rw [decide_eq_decide]
          push_cast
          omega
      · rw [if_neg hc] at hst
        subst hst
        have hval : (n : ℚ) - (j : ℚ) + (u - t1) * ((n : ℚ) / (w : ℚ)) =
            (n : ℚ) - (j : ℚ) + (u - t1) * ((n : ℚ) / (w : ℚ)) := rfl
        have htail := ih j u hj hjn hu1 (fun x hx => hus x (by simp [hx]))
        rw [htail, hfl, List.cons_eq_cons]
        refine ⟨?_, ?_⟩
        · rfl
        · apply List.map_congr_left
          intro i hi
          simp only [Function.comp]
          rw [decide_eq_decide]
          push_cast
          omega

/-- Counterexample to C1 as stated: for the token-bucket algorithm with
maxAdmissions = 2 and windowSeconds = 2, a previously-unseen identity calling
at times 0, 0 and 1 — all inside the window [0, 2) — is admitted three times:
the bucket refills continuously at rate n/w, so the third call one second
later has regained a full token. The claimed denial of call n+1 within the
window therefore fails for token_bucket. -/
theorem claim1_counterexample :
    ((runCalls (fun s u => TokenBucketLimiter.allow ⟨2, 2⟩ s u ("u"))
      emptyStorage [0, 0, 1]).1 = [true, true, true]) ∧
    (∀ t ∈ [(0 : ℚ), 0, 1], 0 ≤ t ∧ t < 2) := by
  constructor
  · with_unfolding_all decide
  · with_unfolding_all decide


/-- C1 (amended): for every configuration with maxAdmissions n ≥ 1 and
windowSeconds w > 0 and a previously-unseen identity, a trace of n + 1 calls
is admitted exactly n times and then denied, provided the calls stay where
each algorithm actually enforces the quota: for fixed_window and
sliding_window_counter, all n + 1 calls inside one fixed window
[W·w, (W+1)·w); for sliding_window_log, all later calls within w of the
first; for token_bucket, all later calls within w/n of the first (before a
full replacement token has been refilled). In each case the flag list is
n times true followed by one false. -/
theorem claim1_first_n_admissions (n : ℕ) (w : ℤ) (A : String)
    (hn : 1 ≤ n) (hw : 0 < w) :
    (∀ (W : ℤ) (t1 : ℚ) (rest : List ℚ), rest.length = n →
      (∀ u ∈ t1 :: rest, (W : ℚ) * (w : ℚ) ≤ u ∧
        u < ((W + 1 : ℤ) : ℚ) * (w : ℚ)) →
      (runCalls (fun s u => FixedWindowLimiter.allow ⟨(n : ℤ), w⟩ s u A)
        emptyStorage (t1 :: rest)).1 = List.replicate n true ++ [false]) ∧
    (∀ (W : ℤ) (t1 : ℚ) (rest : List ℚ), rest.length = n →
      (∀ u ∈ t1 :: rest, (W : ℚ) * (w : ℚ) ≤ u ∧
        u < ((W + 1 : ℤ) : ℚ) * (w : ℚ)) →
      (runCalls
        (fun s u => SlidingWindowCounterLimiter.allow ⟨(n : ℤ), w⟩ s u A)
        emptyStorage (t1 :: rest)).1 = List.replicate n true ++ [false]) ∧
    (∀ (t1 : ℚ) (rest : List ℚ), rest.length = n →
      (∀ u ∈ rest, t1 ≤ u ∧ u < t1 + (w : ℚ)) →
      (runCalls (fun s u => SlidingWindowLogLimiter.allow ⟨(n : ℤ), w⟩ s u A)
        emptyStorage (t1 :: rest)).1 = List.replicate n true ++ [false]) ∧
    (∀ (t1 : ℚ) (rest : List ℚ), rest.length = n →
      (∀ u ∈ rest, t1 ≤ u ∧ u < t1 + (w : ℚ) / (n : ℚ)) →
      (runCalls (fun s u => TokenBucketLimiter.allow ⟨(n : ℤ), w⟩ s u A)
        emptyStorage (t1 :: rest)).1 = List.replicate n true ++ [false]) := by
  refine ⟨?_, ?_, ?_, ?_⟩
  · intro W t1 rest hlen hmem
    obtain ⟨ht1a, ht1b⟩ := hmem t1 (by simp)
    obtain ⟨hfl, hst⟩ := fw_first ((n : ℕ) : ℤ) w W A t1 hw ht1a ht1b
    rw [runCalls]
    rcases hcall : FixedWindowLimiter.allow ⟨((n : ℕ) : ℤ), w⟩
        emptyStorage t1 A with ⟨r, s1⟩
    rw [hcall] at hfl hst
    simp only at hfl hst
    subst hst
    simp only []
    have hrun := fw_run ((n : ℕ) : ℤ) w W A hw rest 1 t1
      (fun x hx => hmem x (by simp [hx])) ht1a
    simp only [Nat.cast_one] at hrun
    rw [hrun, hfl]
    have h1 : decide ((1 : ℚ) ≤ ((((n : ℕ) : ℤ)) : ℚ)) = true := by
      simp only [decide_eq_true_eq]
      push_cast
      exact_mod_cast hn
    rw [h1, hlen]
    have hconv : (List.range n).map
        (fun i : ℕ => decide ((1 : ℤ) + (i : ℤ) + 1 ≤ ((n : ℕ) : ℤ))) =
        (List.range n).map (fun i : ℕ => decide (1 + i + 1 ≤ n)) :=
      List.map_congr_left (fun i _ => by rw [decide_eq_decide]; omega)
    rw [hconv]
    exact flags_map_formula n hn
  · intro W t1 rest hlen hmem
    obtain ⟨ht1a, ht1b⟩ := hmem t1 (by simp)
    obtain ⟨hfl, hst⟩ := swc_first ((n : ℕ) : ℤ) w W A t1 hw ht1a ht1b
    have hpos : (0 : ℚ) < ((((n : ℕ) : ℤ)) : ℚ) := by
      push_cast
      exact_mod_cast hn
    rw [if_pos hpos] at hst
    rw [runCalls]
    rcases hcall : SlidingWindowCounterLimiter.allow ⟨((n : ℕ) : ℤ), w⟩
        emptyStorage t1 A with ⟨r, s1⟩
    rw [hcall] at hfl hst
    simp only at hfl hst
    subst hst
    simp only []
    have hrun := swc_run ((n : ℕ) : ℤ) w W A hw rest 1 t1
      (fun x hx => hmem x (by simp [hx])) ht1a
    simp only [Nat.cast_one] at hrun
    rw [hrun, hfl]
    have h1 : decide ((0 : ℚ) < ((((n : ℕ) : ℤ)) : ℚ)) = true := by
      simp only [decide_eq_true_eq]
      exact hpos
    rw [h1, hlen]
    have hconv : (List.range n).map
        (fun i : ℕ => decide ((1 : ℤ) + (i : ℤ) + 1 ≤ ((n : ℕ) : ℤ))) =
        (List.range n).map (fun i : ℕ => decide (1 + i + 1 ≤ n)) :=
      List.map_congr_left (fun i _ => by rw [decide_eq_decide]; omega)
    rw [hconv]
    exact flags_map_formula n hn
  · intro t1 rest hlen hmem
    obtain ⟨hfl, hst⟩ := swl_first ((n : ℕ) : ℤ) w A t1
    have hpos : (0 : ℤ) < ((n : ℕ) : ℤ) := by omega
    rw [if_pos hpos] at hst
    rw [runCalls]
    rcases hcall : SlidingWindowLogLimiter.allow ⟨((n : ℕ) : ℤ), w⟩
        emptyStorage t1 A with ⟨r, s1⟩
    rw [hcall] at hfl hst
    simp only at hfl hst
    subst hst
    simp only []
    have hrun := swl_run ((n : ℕ) : ℤ) w A t1 hw rest [t1] t1 hmem
      (by simp) le_rfl
    simp only [List.length_singleton, Nat.cast_one] at hrun
    rw [hrun, hfl]
    have h1 : decide ((0 : ℤ) < ((n : ℕ) : ℤ)) = true := by
      simp only [decide_eq_true_eq]
      exact hpos
    rw [h1, hlen]
    have hconv : (List.range n).map
        (fun i : ℕ => decide ((1 : ℤ) + (i : ℤ) + 1 ≤ ((n : ℕ) : ℤ))) =
        (List.range n).map (fun i : ℕ => decide (1 + i + 1 ≤ n)) :=
      List.map_congr_left (fun i _ => by rw [decide_eq_decide]; omega)
    rw [hconv]
    exact flags_map_formula n hn
  · intro t1 rest hlen hmem
    have hn1 : (1 : ℤ) ≤ ((n : ℕ) : ℤ) := by omega
    have hn0 : (0 : ℤ) < ((n : ℕ) : ℤ) := by omega
    obtain ⟨hfl, hst⟩ := tb_first ((n : ℕ) : ℤ) w A t1 hn1
    rw [runCalls]
    rcases hcall : TokenBucketLimiter.allow ⟨((n : ℕ) : ℤ), w⟩
        emptyStorage t1 A with ⟨r, s1⟩
    rw [hcall] at hfl hst
    simp only at hfl hst
    subst hst
    simp only []
    have hbounds : ∀ u ∈ rest, t1 ≤ u ∧
        u < t1 + (w : ℚ) / ((((n : ℕ) : ℤ)) : ℚ) := by
      intro u hu
      obtain ⟨h1, h2⟩ := hmem u hu
      refine ⟨h1, ?_⟩
      push_cast
      exact h2
    have hrun := tb_run ((n : ℕ) : ℤ) w A t1 hn0 hw rest 1 t1 le_rfl
      (by omega) le_rfl hbounds
    rw [hrun, hfl]
    rw [hlen]
    have hconv : (List.range n).map
        (fun i : ℕ => decide (((1 : ℕ) : ℤ) + (i : ℤ) + 1 ≤ ((n : ℕ) : ℤ))) =
        (List.range n).map (fun i : ℕ => decide (1 + i + 1 ≤ n)) :=
      List.map_congr_left (fun i _ => by rw [decide_eq_decide]; omega)
    rw [hconv]
    exact flags_map_formula n hn

theorem claim1_witness :
    ((runCalls
      (fun s u => FixedWindowLimiter.allow ⟨((1 : ℕ) : ℤ), 1⟩ s u ("u"))
      emptyStorage [0, 0]).1 = List.replicate 1 true ++ [false]) ∧
    ((runCalls
      (fun s u => SlidingWindowCounterLimiter.allow ⟨((1 : ℕ) : ℤ), 1⟩ s u
        ("u"))
      emptyStorage [0, 0]).1 = List.replicate 1 true ++ [false]) ∧
    ((runCalls
      (fun s u => SlidingWindowLogLimiter.allow ⟨((1 : ℕ) : ℤ), 1⟩ s u ("u"))
      emptyStorage [0, 0]).1 = List.replicate 1 true ++ [false]) ∧
    ((runCalls
      (fun s u => TokenBucketLimiter.allow ⟨((1 : ℕ) : ℤ), 1⟩ s u ("u"))
      emptyStorage [0, 0]).1 = List.replicate 1 true ++ [false]) := by
  obtain ⟨h1, h2, h3, h4⟩ := claim1_first_n_admissions 1 1 ("u")
    le_rfl (by norm_num)
  exact ⟨h1 0 0 [0] rfl (by with_unfolding_all decide),
    h2 0 0 [0] rfl (by with_unfolding_all decide),
    h3 0 [0] rfl (by with_unfolding_all decide),
    h4 0 [0] rfl (by with_unfolding_all decide)⟩
